import Mathlib

/-!
Verification of the serialization code generators in
`src/quicktype-core/language/Golang.ts` and `src/quicktype-core/language/Php.ts`.

The Go backend embeds two concrete helper functions, `unmarshalUnion` and
`marshalUnion`, verbatim in the generated output (Golang.ts, `emitHelperFunctions`),
and generates per-union `UnmarshalJSON` / `MarshalJSON` methods that call them
(Golang.ts, `emitUnion`).  The first section models those functions directly.

The PHP backend generates hydrate/dehydrate converter classes
(Php.ts, `emitTopHydrateDefinition`, `emitNestedHydrateDefinition`,
`emitTopDehydrateDefinition`, `emitNestedDehydrateDefinition`).  The later
sections model (a) the renderer functions themselves (what code they emit, and
when they throw), and (b) the runtime behavior of the emitted PHP.
-/

namespace QT

/-! ## Go union codec (Golang.ts)

`unmarshalUnion(data, pi, pf, pb, ps, haveArray, pa, haveObject, pc, haveMap, pm,
haveEnum, pe, nullable)` receives one pointer per possible primitive member
(nil when the union does not have that member), a have-flag plus target for each
compound member, and a nullability flag.  The generated `UnmarshalJSON` passes
`&x.F` for each existing member field, so in the model a member's slot exists
exactly when its have-flag is set. -/

/-- Which members a generated union type has, as passed by `emitUnion`:
`pi != nil` iff the union has an integer member, and so on; `haveObject` is the
class member (the source calls `ifMember("class", ...)` for it);
`nullable` comes from `removeNullFromUnion`. -/
structure UnionMembers where
  haveInt : Bool
  haveDouble : Bool
  haveBool : Bool
  haveStr : Bool
  haveArray : Bool
  haveObject : Bool
  haveMap : Bool
  haveEnum : Bool
  nullable : Bool
deriving DecidableEq

/-- The member fields of the generated union struct.  Scalar members are
pointers (`*int64`, `*float64`, `*bool`, `*string`); compound members are a
slice, a class pointer, a map and an enum, all of which are nil-able.  `none`
is Go `nil`; the numeric float payload is an opaque representative (no claim
computes with it). -/
structure UnionSlots where
  i : Option Int
  f : Option Int
  b : Option Bool
  s : Option String
  a : Option Unit
  c : Option Unit
  m : Option Unit
  e : Option Unit
deriving DecidableEq

/-- The first JSON token of the input, as produced by
`json.NewDecoder(...).Token()` with `UseNumber()`: a `json.Number` (for which
`Int64()` and `Float64()` each may or may not succeed), a bool, a string,
a null, an opening delimiter `{` or `[`, or some other delimiter. -/
inductive JsonTok where
  | number (int64Ok : Bool) (float64Ok : Bool)
  | boolTok (b : Bool)
  | strTok (s : String)
  | nullTok
  | openBrace
  | openBracket
  | otherDelim
deriving DecidableEq

/-- The scalar-slot reset `unmarshalUnion` performs first: `*pi = nil` and so
on, for each non-nil pointer. -/
def zeroScalars (u : UnionMembers) (x : UnionSlots) : UnionSlots :=
  { x with
    i := if u.haveInt then none else x.i
    f := if u.haveDouble then none else x.f
    b := if u.haveBool then none else x.b
    s := if u.haveStr then none else x.s }

/-- Model of the emitted Go helper `func unmarshalUnion(...) (bool, error)`
(Golang.ts, `emitHelperFunctions`).  It first resets every existing scalar slot
to nil, then switches on the token.  The returned Bool is the `object` result
(true exactly when the input was an object and the union has a class member;
the class payload itself goes into a local `c` of the caller, so this function
does not touch the class slot).  Numeric payloads are opaque (`some 0`): the
claims under test only inspect which slot is populated. -/
def unmarshalUnion (u : UnionMembers) (x : UnionSlots) :
    JsonTok → Except String (Bool × UnionSlots)
  | .number int64Ok float64Ok =>
    if u.haveInt && int64Ok then .ok (false, { zeroScalars u x with i := some 0 })
    else if u.haveDouble then
      if float64Ok then .ok (false, { zeroScalars u x with f := some 0 })
      else .error "Unparsable number"
    else .error "Union does not contain number"
  | .boolTok v =>
    if u.haveBool then .ok (false, { zeroScalars u x with b := some v })
    else .error "Union does not contain bool"
  | .strTok v =>
    if u.haveEnum then .ok (false, { zeroScalars u x with e := some () })
    else if u.haveStr then .ok (false, { zeroScalars u x with s := some v })
    else .error "Union does not contain string"
  | .nullTok =>
    if u.nullable then .ok (false, zeroScalars u x)
    else .error "Union does not contain null"
  | .openBrace =>
    if u.haveObject then .ok (true, zeroScalars u x)
    else if u.haveMap then .ok (false, { zeroScalars u x with m := some () })
    else .error "Union does not contain object"
  | .openBracket =>
    if u.haveArray then .ok (false, { zeroScalars u x with a := some () })
    else .error "Union does not contain array"
  | .otherDelim => .error "Cannot handle delimiter"

/-- The compound-member reset performed by the generated `UnmarshalJSON`
before decoding (`maybeAssignNil` for each of the compound kinds). -/
def zeroCompounds (u : UnionMembers) (x : UnionSlots) : UnionSlots :=
  { x with
    a := if u.haveArray then none else x.a
    c := if u.haveObject then none else x.c
    m := if u.haveMap then none else x.m
    e := if u.haveEnum then none else x.e }

/-- Model of the generated `func (x *U) UnmarshalJSON(data []byte) error`
(Golang.ts, `emitUnion`): it nils every existing compound member (via
`maybeAssignNil` for the kinds array, class, map, enum), declares a local `c`
for the class member, calls `unmarshalUnion` with `true, &c` for the class
member, and finally stores `&c` into the class field when `object` was
returned true. -/
def unionUnmarshalJSON (u : UnionMembers) (x : UnionSlots) (tok : JsonTok) :
    Except String UnionSlots :=
  let x := zeroCompounds u x
  match unmarshalUnion u x tok with
  | .error e => .error e
  | .ok (object, x') =>
    .ok (if object then (if u.haveObject then { x' with c := some () } else x') else x')

/-- What the emitted `marshalUnion` serializes: one JSON document per branch of
its if-chain. -/
inductive MarshalOut where
  | fromInt (v : Int)
  | fromFloat (v : Int)
  | fromBool (v : Bool)
  | fromStr (v : String)
  | fromArray
  | fromObject
  | fromMap
  | fromEnum
  | nullValue
deriving DecidableEq

/-- Model of the emitted Go helper `func marshalUnion(...) ([]byte, error)`
(Golang.ts, `emitHelperFunctions`).  The generated `MarshalJSON` passes
`x.F` for each scalar member and `x.F != nil, x.F` for each compound member,
so `haveArray`/`haveObject`/`haveMap`/`haveEnum` here mean "that member slot is
populated" and the scalar options are the slots themselves. -/
def marshalUnion (pi pf : Option Int) (pb : Option Bool) (ps : Option String)
    (haveArray haveObject haveMap haveEnum nullable : Bool) :
    Except String MarshalOut :=
  match pi with
  | some v => .ok (.fromInt v)
  | none =>
  match pf with
  | some v => .ok (.fromFloat v)
  | none =>
  match pb with
  | some v => .ok (.fromBool v)
  | none =>
  match ps with
  | some v => .ok (.fromStr v)
  | none =>
  if haveArray then .ok .fromArray
  else if haveObject then .ok .fromObject
  else if haveMap then .ok .fromMap
  else if haveEnum then .ok .fromEnum
  else if nullable then .ok .nullValue
  else .error "Union must not be null"

/-- Counts how many member slots of the union struct are populated (non-nil).
Only slots whose member exists in the union are struct fields at all. -/
def slotCount (hv : Bool) (o : Option α) : Nat :=
  if hv && o.isSome then 1 else 0

/-- Total number of populated member slots. -/
def populatedCount (u : UnionMembers) (x : UnionSlots) : Nat :=
  slotCount u.haveInt x.i + slotCount u.haveDouble x.f + slotCount u.haveBool x.b +
    slotCount u.haveStr x.s + slotCount u.haveArray x.a + slotCount u.haveObject x.c +
    slotCount u.haveMap x.m + slotCount u.haveEnum x.e

/-! ## PHP type model (Php.ts)

The renderer dispatches on the type-model variants through `matchType`
(the cases of `phpType`, `phpHydrateType`, `phpDehydrateType`).  `PTyp` mirrors
that closed case list.  The canonical nullable union `Union{Null, T}` — the
shape `nullableFromUnion` recognizes — is the `nullable` constructor.  A true
multi-member union has no constructor here: Php.ts never routes one into the
hydrate/dehydrate generators (its `matchType` union branches silently emit
nothing for it), and no claim under test exercises that case.  Classes are
referenced by identity (an index into the graph), so self-referential graphs
are representable. -/

inductive PTyp where
  | anyT
  | nullT
  | boolT
  | intT
  | doubleT
  | strT
  | transformed (kind : String)
  | arrayOf (item : PTyp)
  | mapOf (value : PTyp)
  | enumT (name : String)
  | classT (cid : Nat)
  | nullable (inner : PTyp)
deriving DecidableEq

/-- A class property, as the renderer sees it: the original JSON field name
(`jsonName` in the `forEachClassProperty` callbacks), the resolved PHP property
name (`name`, produced by the naming machinery — `propertyNamingFunction` camel
cases, so e.g. jsonName `my_name` resolves to `myName`), and its type. -/
structure Field where
  jsonName : String
  name : String
  ty : PTyp
deriving DecidableEq

/-- A class of the type graph: the resolved type name (`nameForNamedType`),
the combined name (`getCombinedName`, used to derive the hydrator/dehydrator
function names), and the fields in graph-declaration order. -/
structure ClassDef where
  name : String
  combinedName : String
  fields : List Field
deriving DecidableEq

/-- The type graph: classes indexed by identity. -/
abbrev Graph := List ClassDef

/-- Modelled from the quicktype core `Type.isNullable` (not under src/): a type
is nullable when `null` is among its members — the `null` and `any` primitives
and unions containing `null`.  Php.ts uses it to decide optionality
(`sortClassProperties`, the presence checks and the `?? null` default in
`emitTopDehydrateDefinition`). -/
def PTyp.isNullable : PTyp → Bool
  | .nullT => true
  | .anyT => true
  | .nullable _ => true
  | _ => false

/-- Modelled from the quicktype core `Type.isPrimitive` (not under src/, used
by `emitArrayHydrateDefinition` / `emitArrayDehydrateDefinition`): the
primitive kinds, including transformed strings. -/
def PTyp.isPrimitive : PTyp → Bool
  | .anyT | .nullT | .boolT | .intT | .doubleT | .strT | .transformed _ => true
  | _ => false

/-- `PhpRenderer.capitaliseFirstLetter`. -/
def capitaliseFirstLetter (s : String) : String :=
  match s.toList with
  | [] => ""
  | ch :: rest => String.mk (ch.toUpper :: rest)

/-- `PhpRenderer.sortClassProperties`: `mapSortBy` with key
`p.type.isNullable ? 1 : 0` is a stable sort, i.e. the non-nullable properties
in declaration order followed by the nullable ones in declaration order.
The base renderer's `forEachClassProperty` (quicktype core, not under src/)
applies this hook to every property iteration of the PHP renderer. -/
def sortClassProperties (fields : List Field) : List Field :=
  fields.filter (fun f => !f.ty.isNullable) ++ fields.filter (fun f => f.ty.isNullable)

/-- Class lookup by identity. -/
def classOf (g : Graph) (cid : Nat) : Option ClassDef := g.get? cid

/-- The resolved class name, as `nameForNamedType` yields it. -/
def classNameOf (g : Graph) (cid : Nat) : String :=
  match classOf g cid with
  | some c => c.name
  | none => ""

/-- `getCombinedName()` of a type: only named class types carry one in this
model; the naming machinery for other types is not modelled (no emitted call
under test targets one). -/
def combinedNameOfType (g : Graph) : PTyp → String
  | .classT cid =>
    match classOf g cid with
    | some c => c.combinedName
    | none => ""
  | _ => ""

/-- Name of the generated nested dehydrator for a class:
`"dehydrate" + capitaliseFirstLetter(classType.getCombinedName())`. -/
def dehydratorName (c : ClassDef) : String :=
  "dehydrate" ++ capitaliseFirstLetter c.combinedName

/-- Name of the generated nested hydrator for a class. -/
def hydratorName (c : ClassDef) : String :=
  "hydrate" ++ capitaliseFirstLetter c.combinedName

/-! ## The renderer's per-type emission (Php.ts `phpType`, `phpHydrateType`,
`phpDehydrateType`)

These model the *generator*: which PHP text a field type renders to, and for
which types the generator itself throws (a fatal configuration error, so no
code is generated at all). -/

/-- Model of `PhpRenderer.phpType(_reference, t, isOptional, prefix, suffix)`.
The returned `Sourcelike` is modelled as the rendered string (issue
annotations on `any`/`null` are display metadata and are dropped).  Errors are
the `throw Error(...)` calls of the source. -/
def phpType (g : Graph) (t : PTyp) (isOptional : Bool) (pre suf : String) :
    Except String String :=
  let optionalize := fun (s : String) =>
    (if isOptional then pre else "") ++ s ++ (if isOptional then suf else "")
  match t with
  | .anyT => .ok "Object"
  | .nullT => .ok "Object"
  | .boolT => .ok (optionalize "bool")
  | .intT => .ok (optionalize "long")
  | .doubleT => .ok (optionalize "float")
  | .strT => .ok (optionalize "string")
  | .arrayOf _ => .ok (optionalize "array")
  | .classT cid => .ok (optionalize (classNameOf g cid))
  | .mapOf _ => .ok (optionalize "stdClass")
  | .enumT n => .ok (optionalize n)
  | .nullable inner => phpType g inner true pre suf
  | .transformed kind =>
    if kind = "time" then .error "transformedStringType.kind === \"time\""
    else if kind = "date" then .error "transformedStringType.kind === \"date\""
    else if kind = "date-time" then .ok "DateTime"
    else if kind = "uuid" then .error "transformedStringType.kind === \"uuid\""
    else .ok "string"

/-- The shape of the expression `phpHydrateType` emits on the right-hand side
of `$res->name = ...`: the caller's `args` verbatim (the getter call), the
bare local variable `$jsonName` (array case), a call to the class's hydrator
wrapping the args, or `args->format(DateTimeInterface::ISO8601)`. -/
inductive EmitSrc where
  | fromArgs
  | localArrayVar (v : String)
  | funcCall (fname : String)
  | formatCall
deriving DecidableEq

/-- Model of `PhpRenderer.phpHydrateType(jsonName, t, lhs, args)`: which
expression gets emitted for a field of type `t`, or the generator's own
`throw`.  (For a true multi-member union the source emits nothing at all;
that shape is not representable here.) -/
def phpHydrateType (g : Graph) (jsonName : String) (t : PTyp) :
    Except String EmitSrc :=
  match t with
  | .anyT | .nullT | .boolT | .intT | .doubleT | .strT => .ok .fromArgs
  | .arrayOf _ => .ok (.localArrayVar jsonName)
  | .classT cid =>
    .ok (.funcCall ("hydrate" ++ capitaliseFirstLetter (combinedNameOfType g (.classT cid))))
  | .mapOf _ => .ok .fromArgs
  | .enumT _ => .ok .fromArgs
  | .nullable inner => phpHydrateType g jsonName inner
  | .transformed kind =>
    if kind = "date-time" then .ok .formatCall
    else .error "transformedStringType.kind === \"unknown\""

/-- Model of `PhpRenderer.phpDehydrateType(jsonName, t, lhs, args)`: the
constructor-argument expression emitted for a field of type `t`, or the
generator's own `throw`. -/
def phpDehydrateType (g : Graph) (jsonName : String) (t : PTyp) :
    Except String EmitSrc :=
  match t with
  | .anyT | .nullT | .boolT | .intT | .doubleT | .strT => .ok .fromArgs
  | .arrayOf _ => .ok (.localArrayVar jsonName)
  | .classT cid =>
    .ok (.funcCall ("dehydrate" ++ capitaliseFirstLetter (combinedNameOfType g (.classT cid))))
  | .mapOf _ => .ok .fromArgs
  | .enumT _ => .ok .fromArgs
  | .nullable inner => phpDehydrateType g jsonName inner
  | .transformed kind =>
    if kind = "date-time" then .ok .formatCall
    else .error "transformedStringType.kind === \"unknown\""

/-! ## Structure of the emitted dehydrators (for the presence-check and
read-key claims)

`emitTopDehydrateDefinition` emits, for the entry class: one
`if (!isset($data['NAME'])) throw ...` statement per non-nullable property
(`NAME` being the *resolved property name*), the array locals, and then the
constructor call whose argument for each property is
`phpDehydrateType(jsonName, type, [], ["$data['jsonName']", opt])` with
`opt = " ?? null"` exactly when the property type is nullable.
`emitNestedDehydrateDefinition` emits only the constructor call, with args
`["$data['jsonName']"]` — no checks, no `?? null`. -/

/-- The base `args` expression handed to `phpDehydrateType`: a read of
`$data[key]`, with or without the `?? null` default. -/
structure DataRead where
  key : String
  coalesce : Bool
deriving DecidableEq

/-- One emitted constructor argument: the emission shape applied to the base
data read. -/
structure DehydArg where
  src : EmitSrc
  read : DataRead
deriving DecidableEq

/-- The checks-and-arguments skeleton of an emitted dehydrate function. -/
structure DehydratorDesc where
  checks : List String
  args : List DehydArg
deriving DecidableEq

/-- The constructor-argument list the renderer emits for a field list: the
caller passes `$data['jsonName']` plus, per field, whether to append
`?? null` (the top-level emitter uses `p.type.isNullable`, the nested emitter
never coalesces). -/
def dehydArgsOf (g : Graph) (coalesceOf : Field → Bool) :
    List Field → Except String (List DehydArg)
  | [] => .ok []
  | f :: fs =>
    match phpDehydrateType g f.jsonName f.ty with
    | .error e => .error e
    | .ok src =>
      match dehydArgsOf g coalesceOf fs with
      | .error e => .error e
      | .ok args =>
        .ok ({ src := src, read := { key := f.jsonName, coalesce := coalesceOf f } } :: args)

/-- The skeleton emitted by `emitTopDehydrateDefinition` for a class: presence
checks keyed on the resolved property `name` for each non-nullable property
(in the sorted iteration order), and one constructor argument per property
reading `$data['jsonName']` with `?? null` exactly for nullable properties.
(The array-local loops it also emits are modelled separately, in the runtime
semantics.) -/
def emitTopDehydrateDesc (g : Graph) (c : ClassDef) : Except String DehydratorDesc :=
  match dehydArgsOf g (fun f => f.ty.isNullable) (sortClassProperties c.fields) with
  | .error e => .error e
  | .ok args =>
    .ok { checks := ((sortClassProperties c.fields).filter (fun f => !f.ty.isNullable)).map
            Field.name,
          args := args }

/-- The skeleton emitted by `emitNestedDehydrateDefinition` for a class: no
presence checks, and one constructor argument per property reading
`$data['jsonName']` with no `?? null`. -/
def emitNestedDehydrateDesc (g : Graph) (c : ClassDef) : Except String DehydratorDesc :=
  match dehydArgsOf g (fun _ => false) (sortClassProperties c.fields) with
  | .error e => .error e
  | .ok args => .ok { checks := [], args := args }

/-! ## The nested-emission traversal (Php.ts `emitNestedHydrateDefinition`,
`emitNestedDehydrateDefinition`)

After emitting the top-level function, the renderer walks every property type
through `getClassTypeFromType`; when a class is found it emits that class's
nested hydrator/dehydrator and recurses into *its* properties, with no
memoization and no cycle check.  The model records, fuel-bounded, the sequence
of function names emitted (the source's depth-first pre-order); the recursion
is linearized through an explicit worklist so that the definition is structural
in the fuel.  `none` means the traversal did not complete within the fuel. -/

/-- `Type.getChildren()` (quicktype core, not under src/), for the variants the
traversal can meet: array and map wrap their element type, a class's children
are its property types in declaration order, and a union's children are its
members (the source iterates a set; the model fixes null-first order — no
theorem depends on it). -/
def childrenOf (g : Graph) : PTyp → List PTyp
  | .arrayOf item => [item]
  | .mapOf v => [v]
  | .nullable inner => [.nullT, inner]
  | .classT cid =>
    match classOf g cid with
    | some c => c.fields.map Field.ty
    | none => []
  | _ => []

/-- `PhpRenderer.getFirstChildren`. -/
def getFirstChildren (g : Graph) (t : PTyp) : Option PTyp :=
  match childrenOf g t with
  | [] => none
  | x :: _ => some x

/-- `PhpRenderer.getClassTypeFromType`: a direct class; a canonical nullable
union wrapping a class; or, for an array, the *first child of the item type*
when that is a class or a nullable union wrapping one. -/
def getClassTypeFromType (g : Graph) (t : PTyp) : Option Nat :=
  match t with
  | .classT cid => some cid
  | .nullable (.classT cid) => some cid
  | .arrayOf item =>
    match getFirstChildren g item with
    | some (.classT cid) => some cid
    | some (.nullable (.classT cid)) => some cid
    | _ => none
  | _ => none

/-- `PhpRenderer.emitNestedDehydrateDefinition`, fuel-bounded over a worklist
of the types still to visit: for each type that resolves to a class, emit
`dehydrate<CombinedName>` and then traverse that class's (sorted) property
types before the rest of the worklist — exactly the source's recursion order.
Returns the emitted function names in emission order, or `none` when the
traversal does not finish within the fuel. -/
def emitNestedDehydrateDefinition : Nat → Graph → List PTyp → Option (List String)
  | 0, _, _ => none
  | _ + 1, _, [] => some []
  | fuel + 1, g, t :: rest =>
    match getClassTypeFromType g t with
    | none => emitNestedDehydrateDefinition fuel g rest
    | some cid =>
      match classOf g cid with
      | none => emitNestedDehydrateDefinition fuel g rest
      | some c =>
        match emitNestedDehydrateDefinition fuel g
            ((sortClassProperties c.fields).map Field.ty ++ rest) with
        | none => none
        | some emitted => some (dehydratorName c :: emitted)

/-- `PhpRenderer.emitNestedHydrateDefinition`, fuel-bounded the same way. -/
def emitNestedHydrateDefinition : Nat → Graph → List PTyp → Option (List String)
  | 0, _, _ => none
  | _ + 1, _, [] => some []
  | fuel + 1, g, t :: rest =>
    match getClassTypeFromType g t with
    | none => emitNestedHydrateDefinition fuel g rest
    | some cid =>
      match classOf g cid with
      | none => emitNestedHydrateDefinition fuel g rest
      | some c =>
        match emitNestedHydrateDefinition fuel g
            ((sortClassProperties c.fields).map Field.ty ++ rest) with
        | none => none
        | some emitted => some (hydratorName c :: emitted)

/-- The function names emitted for a top-level class by
`emitTopDehydrateDefinition`: the entry `dehydrate` itself, then — per
property, in the sorted iteration order — the nested traversal. -/
def emitTopDehydrateNames (fuel : Nat) (g : Graph) (c : ClassDef) : Option (List String) :=
  match emitNestedDehydrateDefinition fuel g ((sortClassProperties c.fields).map Field.ty) with
  | none => none
  | some emitted => some ("dehydrate" :: emitted)

/-- The function names emitted for a top-level class by
`emitTopHydrateDefinition`. -/
def emitTopHydrateNames (fuel : Nat) (g : Graph) (c : ClassDef) : Option (List String) :=
  match emitNestedHydrateDefinition fuel g ((sortClassProperties c.fields).map Field.ty) with
  | none => none
  | some emitted => some ("hydrate" :: emitted)

/-! ## Runtime behavior of the emitted PHP

PHP values as the generated converters meet them.  JSON-decoded generic data
(`json_decode($json, true)`): a JSON object is an associative array — `objV` —
and a JSON array is a list array — `arrV`.  The typed instances the converters
build (`new ClassName(...)`) and the `stdClass` results of hydrate are carried
as `objV` of their properties as well: PHP distinguishes `stdClass` from
associative arrays and from class instances, but the JSON representation
identifies them, and the spec's round-trip statements are about the generic
JSON-like value.  `dateTimeV` is a PHP `DateTime` object carrying its ISO-8601
rendering (`->format(DateTimeInterface::ISO8601)` returns it); `floatV` carries
an opaque representative since the generated code never computes with floats. -/

inductive PValue where
  | nullV
  | boolV (b : Bool)
  | intV (n : Int)
  | floatV (q : Int)
  | strV (s : String)
  | dateTimeV (iso : String)
  | arrV (xs : List PValue)
  | objV (props : List (String × PValue))

/-- First-match association lookup, as PHP array subscripting and property
reads behave on our association lists. -/
def assocLookup (k : String) : List (String × PValue) → Option PValue
  | [] => none
  | (k', v) :: rest => if k' = k then some v else assocLookup k rest

/-- `$data['k']`: a missing key raises a PHP warning and evaluates to null,
which is also what `$data['k'] ?? null` evaluates to — so both reads have the
same value semantics.  The same function models reads of local variables and
of object properties (undefined ones evaluate to null, with a warning). -/
def phpRead (data : List (String × PValue)) (k : String) : PValue :=
  (assocLookup k data).getD .nullV

/-- `isset($data['k'])`: false when the key is missing *or* its value is
null. -/
def phpIsset (data : List (String × PValue)) (k : String) : Bool :=
  match assocLookup k data with
  | some .nullV => false
  | some _ => true
  | none => false

/-- `foreach ($v as $value)`: iterates array elements or object property
values; iterating anything else warns and performs zero iterations. -/
def toIterList : PValue → List PValue
  | .arrV xs => xs
  | .objV ps => ps.map Prod.snd
  | _ => []

/-- Runtime failures of the emitted converters.  `propertyNotSet name` is the
`RuntimeException("Property 'name' not set")` thrown by the presence checks of
the top-level dehydrate; `notInstance` covers the `instanceof` guard of the
top-level hydrate and PHP `TypeError`s from passing a non-array/non-object to
a typed parameter; `methodOnNonObject` is the PHP error from calling
`->format(...)` on a value that is not a `DateTime`; `undefinedFunction` is a
call to a hydrator/dehydrator that was never emitted; `typeError param` is
the PHP `TypeError` thrown under `declare(strict_types=1)` when an argument of
an emitted `new ClassName(...)` call fails the constructor's declared
parameter type (the parameter is named after the property); `unsupported` marks a
field type for which the *generator* itself throws, so no code exists;
`internal` flags a model-level variant mismatch that cannot occur;
`outOfFuel` means evaluation did not complete within the fuel. -/
inductive PhpErr where
  | propertyNotSet (name : String)
  | notInstance
  | methodOnNonObject
  | undefinedFunction (fname : String)
  | typeError (param : String)
  | unsupported
  | internal
  | outOfFuel
deriving DecidableEq

/-- The unwrap both array-locals emitters perform first:
`if (p.type instanceof UnionType) { const nullable = nullableFromUnion(p.type);
if (nullable !== null) type = nullable; }`. -/
def unwrapNullable : PTyp → PTyp
  | .nullable inner => inner
  | t => t

/-- Whether a property is handled by the array-locals emitters. -/
def isArrayField (f : Field) : Bool :=
  match unwrapNullable f.ty with
  | .arrayOf _ => true
  | _ => false

/-- Passing a value to an `array $data` parameter: associative arrays (JSON
objects) pass through; list arrays are accepted too but hold no string keys;
anything else raises a PHP `TypeError`. -/
def asPhpArray : PValue → Option (List (String × PValue))
  | .objV props => some props
  | .arrV _ => some []
  | _ => none

/-- Dispatch of an emitted `$this->dehydrateX(...)` call: PHP resolves the
callee by name among the emitted methods. -/
def findByDehydratorName (g : Graph) (fname : String) : Option ClassDef :=
  g.find? (fun c => dehydratorName c = fname)

/-- Dispatch of an emitted `$this->hydrateX(...)` call. -/
def findByHydratorName (g : Graph) (fname : String) : Option ClassDef :=
  g.find? (fun c => hydratorName c = fname)

/-- Passing a value to a constructor parameter whose declaration is
`phpType(false, p.type)` (Php.ts:426-435), under the `declare(strict_types=1)`
every generated file carries (Php.ts:264).  `none` is a PHP `TypeError`;
otherwise the result is the value the parameter binds (the one scalar
conversion strict typing still performs is integer-to-float widening for a
`float` parameter).  Per `phpType` (Php.ts:274-312): `any`/`null` render as
`Object`, the case-insensitive built-in `object` type, accepting any object;
`bool`, `float` and `string` are the built-in scalar types; *integer renders
as `long`, which PHP resolves as a class name — no such class exists, so a
`long` parameter rejects every argument, integers included*; `array`,
`stdClass`, class and enum names accept the corresponding shapes (the model's
objects carry no class tag, as in the hydrate `instanceof` model); `date-time`
renders as `DateTime`.  A nullable union renders with the `?` prefix — except
for `any`/`null` and transformed strings, whose `phpType` branches ignore the
optionalize wrapper — and a `?T` parameter additionally accepts null (even
`?long`, since the null check precedes class resolution). -/
def coerceParam : PTyp → PValue → Option PValue
  | .anyT, v | .nullT, v =>
    match v with
    | .objV ps => some (.objV ps)
    | .dateTimeV s => some (.dateTimeV s)
    | _ => none
  | .boolT, v =>
    match v with
    | .boolV b => some (.boolV b)
    | _ => none
  | .intT, _ => none
  | .doubleT, v =>
    match v with
    | .floatV q => some (.floatV q)
    | .intV n => some (.floatV n)
    | _ => none
  | .strT, v =>
    match v with
    | .strV s => some (.strV s)
    | _ => none
  | .transformed kind, v =>
    if kind = "date-time" then
      match v with
      | .dateTimeV s => some (.dateTimeV s)
      | _ => none
    else
      match v with
      | .strV s => some (.strV s)
      | _ => none
  | .arrayOf _, v =>
    match v with
    | .arrV xs => some (.arrV xs)
    | _ => none
  | .mapOf _, v =>
    match v with
    | .objV ps => some (.objV ps)
    | _ => none
  | .classT _, v =>
    match v with
    | .objV ps => some (.objV ps)
    | _ => none
  | .enumT _, v =>
    match v with
    | .objV ps => some (.objV ps)
    | _ => none
  | .nullable t, v =>
    match t with
    | .anyT | .nullT =>
      match v with
      | .objV ps => some (.objV ps)
      | .dateTimeV s => some (.dateTimeV s)
      | _ => none
    | .transformed kind =>
      if kind = "date-time" then
        match v with
        | .dateTimeV s => some (.dateTimeV s)
        | _ => none
      else
        match v with
        | .strV s => some (.strV s)
        | _ => none
    | _ =>
      match v with
      | .nullV => some .nullV
      | _ => coerceParam t v

/-- The emitted `new ClassName(arg1, ..., argn)` call: PHP checks the
arguments left to right against the constructor's parameter declarations
before the body runs, throwing `TypeError` at the first mismatch; on success
the body assigns each (possibly widened) argument to the class's property of
the same name, in declaration order.  The declared parameter types are
`phpType` of the field types, in the sorted property order the class declares
(Php.ts:408-435). -/
def bindCtorArgs : List Field → List PValue → Except PhpErr (List (String × PValue))
  | [], [] => .ok []
  | f :: fs, v :: vs =>
    match coerceParam f.ty v with
    | none => .error (.typeError f.name)
    | some w =>
      match bindCtorArgs fs vs with
      | .error e => .error e
      | .ok ps => .ok ((f.name, w) :: ps)
  | _, _ => .error .internal

/-- The pieces of emitted code the interpreter can run.  `d…` requests belong
to the dehydrate side, `h…` to the hydrate side.

* `dArg ty jsonName locals data` — the constructor-argument expression emitted
  by `phpDehydrateType` for a field of type `ty`, evaluated against the
  incoming `$data` and the array locals.
* `dArgs fs locals data` — the whole argument list of the emitted
  `new ClassName(...)` call.
* `dBody c data` — the body of the emitted nested `dehydrateX(array $data)`:
  a single `return new ClassName(...)`, whose arguments are checked against
  the constructor's declared parameter types (see `bindCtorArgs`).
* `dElems item vals` — the body of an `emitArrayDehydrateDefinition` loop
  applied to each element.
* `dLocals fs data` — the array locals built by `emitArrayDehydrateDefinition`
  (reading `$data['NAME']`, `NAME` the resolved property name).
* `hArg ty jsonName pname locals props` — the right-hand side emitted by
  `phpHydrateType`; the getter reads property `pname` of the message.
* `hArgs`, `hBody`, `hElems`, `hLocals` — hydrate counterparts.  Note that
  `emitNestedHydrateDefinition` emits its array loops *outside* the function
  body (at class scope), so `hBody` runs with empty locals. -/
inductive PhpReq where
  | dArg (ty : PTyp) (jsonName : String)
      (locals : List (String × PValue)) (data : List (String × PValue))
  | dArgs (fs : List Field)
      (locals : List (String × PValue)) (data : List (String × PValue))
  | dBody (c : ClassDef) (data : List (String × PValue))
  | dElems (item : PTyp) (vals : List PValue)
  | dLocals (fs : List Field) (data : List (String × PValue))
  | hArg (ty : PTyp) (jsonName pname : String)
      (locals : List (String × PValue)) (props : List (String × PValue))
  | hArgs (fs : List Field)
      (locals : List (String × PValue)) (props : List (String × PValue))
  | hBody (c : ClassDef) (v : PValue)
  | hElems (item : PTyp) (vals : List PValue)
  | hLocals (fs : List Field) (props : List (String × PValue))

/-- Results of running a piece of emitted code. -/
inductive PhpOut where
  | one (v : PValue)
  | many (vs : List PValue)
  | bindings (ps : List (String × PValue))

/-- Small-step-free, fuel-indexed evaluator for the emitted PHP.  Every
recursive call decrements the fuel, so the definition is structural and
computable by the kernel; theorems quantify over sufficient fuel. -/
def phpRun : Nat → Graph → PhpReq → Except PhpErr PhpOut
  | 0, _, _ => .error .outOfFuel
  | fuel + 1, g, req =>
    match req with
    | .dArg ty j locals data =>
      match ty with
      | .anyT | .nullT | .boolT | .intT | .doubleT | .strT | .mapOf _ | .enumT _ =>
        .ok (.one (phpRead data j))
      | .arrayOf _ => .ok (.one (phpRead locals j))
      | .classT cid =>
        let fname := "dehydrate" ++ capitaliseFirstLetter (combinedNameOfType g (.classT cid))
        match findByDehydratorName g fname with
        | none => .error (.undefinedFunction fname)
        | some callee =>
          match asPhpArray (phpRead data j) with
          | none => .error .notInstance
          | some props => phpRun fuel g (.dBody callee props)
      | .nullable inner => phpRun fuel g (.dArg inner j locals data)
      | .transformed kind =>
        if kind = "date-time" then
          match phpRead data j with
          | .dateTimeV s => .ok (.one (.strV s))
          | _ => .error .methodOnNonObject
        else .error .unsupported
    | .dArgs fs locals data =>
      match fs with
      | [] => .ok (.many [])
      | f :: rest =>
        match phpRun fuel g (.dArg f.ty f.jsonName locals data) with
        | .error e => .error e
        | .ok (.one v) =>
          match phpRun fuel g (.dArgs rest locals data) with
          | .error e => .error e
          | .ok (.many vs) => .ok (.many (v :: vs))
          | .ok _ => .error .internal
        | .ok _ => .error .internal
    | .dBody c data =>
      match phpRun fuel g (.dArgs (sortClassProperties c.fields) [] data) with
      | .error e => .error e
      | .ok (.many vs) =>
        match bindCtorArgs (sortClassProperties c.fields) vs with
        | .error e => .error e
        | .ok ps => .ok (.one (.objV ps))
      | .ok _ => .error .internal
    | .dElems item vals =>
      if item.isPrimitive then .ok (.many vals)
      else
        match getFirstChildren g item with
        | none => .ok (.many [])
        | some sc =>
          match vals with
          | [] => .ok (.many [])
          | v :: rest =>
            let fname := "dehydrate" ++ capitaliseFirstLetter (combinedNameOfType g sc)
            match findByDehydratorName g fname with
            | none => .error (.undefinedFunction fname)
            | some callee =>
              match asPhpArray v with
              | none => .error .notInstance
              | some props =>
                match phpRun fuel g (.dBody callee props) with
                | .error e => .error e
                | .ok (.one w) =>
                  match phpRun fuel g (.dElems item rest) with
                  | .error e => .error e
                  | .ok (.many ws) => .ok (.many (w :: ws))
                  | .ok _ => .error .internal
                | .ok _ => .error .internal
    | .dLocals fs data =>
      match fs with
      | [] => .ok (.bindings [])
      | f :: rest =>
        match unwrapNullable f.ty with
        | .arrayOf item =>
          match phpRun fuel g (.dElems item (toIterList (phpRead data f.name))) with
          | .error e => .error e
          | .ok (.many ws) =>
            match phpRun fuel g (.dLocals rest data) with
            | .error e => .error e
            | .ok (.bindings ps) => .ok (.bindings ((f.name, .arrV ws) :: ps))
            | .ok _ => .error .internal
          | .ok _ => .error .internal
        | _ => phpRun fuel g (.dLocals rest data)
    | .hArg ty j pname locals props =>
      match ty with
      | .anyT | .nullT | .boolT | .intT | .doubleT | .strT | .mapOf _ | .enumT _ =>
        .ok (.one (phpRead props pname))
      | .arrayOf _ => .ok (.one (phpRead locals j))
      | .classT cid =>
        let fname := "hydrate" ++ capitaliseFirstLetter (combinedNameOfType g (.classT cid))
        match findByHydratorName g fname with
        | none => .error (.undefinedFunction fname)
        | some callee => phpRun fuel g (.hBody callee (phpRead props pname))
      | .nullable inner => phpRun fuel g (.hArg inner j pname locals props)
      | .transformed kind =>
        if kind = "date-time" then
          match phpRead props pname with
          | .dateTimeV s => .ok (.one (.strV s))
          | _ => .error .methodOnNonObject
        else .error .unsupported
    | .hArgs fs locals props =>
      match fs with
      | [] => .ok (.many [])
      | f :: rest =>
        match phpRun fuel g (.hArg f.ty f.jsonName f.name locals props) with
        | .error e => .error e
        | .ok (.one v) =>
          match phpRun fuel g (.hArgs rest locals props) with
          | .error e => .error e
          | .ok (.many vs) => .ok (.many (v :: vs))
          | .ok _ => .error .internal
        | .ok _ => .error .internal
    | .hBody c v =>
      match v with
      | .objV props =>
        match phpRun fuel g (.hArgs (sortClassProperties c.fields) [] props) with
        | .error e => .error e
        | .ok (.many vs) =>
          .ok (.one (.objV (List.zip ((sortClassProperties c.fields).map Field.name) vs)))
        | .ok _ => .error .internal
      | _ => .error .notInstance
    | .hElems item vals =>
      if item.isPrimitive then .ok (.many vals)
      else
        match getFirstChildren g item with
        | none => .ok (.many [])
        | some sc =>
          match vals with
          | [] => .ok (.many [])
          | v :: rest =>
            let fname := "hydrate" ++ capitaliseFirstLetter (combinedNameOfType g sc)
            match findByHydratorName g fname with
            | none => .error (.undefinedFunction fname)
            | some callee =>
              match phpRun fuel g (.hBody callee v) with
              | .error e => .error e
              | .ok (.one w) =>
                match phpRun fuel g (.hElems item rest) with
                | .error e => .error e
                | .ok (.many ws) => .ok (.many (w :: ws))
                | .ok _ => .error .internal
              | .ok _ => .error .internal
    | .hLocals fs props =>
      match fs with
      | [] => .ok (.bindings [])
      | f :: rest =>
        match unwrapNullable f.ty with
        | .arrayOf item =>
          match phpRun fuel g (.hElems item (toIterList (phpRead props f.name))) with
          | .error e => .error e
          | .ok (.many ws) =>
            match phpRun fuel g (.hLocals rest props) with
            | .error e => .error e
            | .ok (.bindings ps) => .ok (.bindings ((f.name, .arrV ws) :: ps))
            | .ok _ => .error .internal
          | .ok _ => .error .internal
        | _ => phpRun fuel g (.hLocals rest props)

/-- Runtime behavior of the top-level `dehydrate(array $data)` emitted by
`emitTopDehydrateDefinition`: first one presence check per non-nullable
property, in the sorted iteration order, each `if (!isset($data['NAME'])) throw
new RuntimeException("Property 'NAME' not set")` keyed on the resolved property
name; then the array locals; then `return new ClassName(...)` with one
argument per property (the `new` call first checks each argument against the
parameter type the generated constructor declares — `phpType` of the field's
type, under `declare(strict_types=1)` — and then assigns the arguments to the
class's properties, which the generated class declares in the same sorted
order). -/
def dehydrate (fuel : Nat) (g : Graph) (c : ClassDef)
    (data : List (String × PValue)) : Except PhpErr PValue :=
  let fs := sortClassProperties c.fields
  match fs.find? (fun f => !f.ty.isNullable && !phpIsset data f.name) with
  | some f => .error (.propertyNotSet f.name)
  | none =>
    match phpRun fuel g (.dLocals fs data) with
    | .error e => .error e
    | .ok (.bindings locals) =>
      match phpRun fuel g (.dArgs fs locals data) with
      | .error e => .error e
      | .ok (.many vs) =>
        match bindCtorArgs fs vs with
        | .error e => .error e
        | .ok ps => .ok (.objV ps)
      | .ok _ => .error .internal
    | .ok _ => .error .internal

/-- Runtime behavior of the top-level `hydrate($message)` emitted by
`emitTopHydrateDefinition`: the `instanceof` guard (modelled as requiring an
object value, since the model's objects carry no class tag), the array locals
from the getters, then `$res = new stdClass()` and one `$res->name = ...`
assignment per property in the sorted iteration order. -/
def hydrate (fuel : Nat) (g : Graph) (c : ClassDef) (msg : PValue) :
    Except PhpErr PValue :=
  match msg with
  | .objV props =>
    let fs := sortClassProperties c.fields
    match phpRun fuel g (.hLocals fs props) with
    | .error e => .error e
    | .ok (.bindings locals) =>
      match phpRun fuel g (.hArgs fs locals props) with
      | .error e => .error e
      | .ok (.many vs) => .ok (.objV (List.zip (fs.map Field.name) vs))
      | .ok _ => .error .internal
    | .ok _ => .error .internal
  | _ => .error .notInstance

/-! ## Shape predicates used by the round-trip statements -/

/-- The four scalar kinds whose hydrate/dehydrate emission is a verbatim
copy. -/
def scalarBase : PTyp → Bool
  | .boolT | .intT | .doubleT | .strT => true
  | _ => false

/-- A field type that is a verbatim scalar or a canonical nullable union of
one. -/
def simpleTy : PTyp → Bool
  | .nullable inner => scalarBase inner
  | t => scalarBase t

/-- A runtime value of the matching scalar shape (never null). -/
def scalarShape : PTyp → PValue → Bool
  | .boolT, .boolV _ => true
  | .intT, .intV _ => true
  | .doubleT, .floatV _ => true
  | .strT, .strV _ => true
  | _, _ => false

/-- The scalar kinds whose generated constructor parameter declaration is a
real built-in PHP type accepting exactly the matching runtime shape: bool,
double and string.  Integer is excluded: `phpType` renders it as `long`
(Php.ts:284), which PHP resolves as an undefined class name, so under
`declare(strict_types=1)` the generated constructor rejects every integer
argument. -/
def ctorScalar : PTyp → Bool
  | .boolT | .doubleT | .strT => true
  | _ => false

/-- A field type that is a constructor-safe verbatim scalar or a canonical
nullable union of one. -/
def ctorSimpleTy : PTyp → Bool
  | .nullable inner => ctorScalar inner
  | t => ctorScalar t

/-- A value admissible for a field: nullable fields may hold null, otherwise
the scalar shape must match. -/
def fieldValOk : PTyp → PValue → Bool
  | .nullable inner, v =>
    (match v with | .nullV => true | _ => false) || scalarShape inner v
  | ty, v => scalarShape ty v

/-- Every field of the class finds an admissible value in the generic data
(keyed by the property name). -/
def dataFieldsOk (c : ClassDef) (d : List (String × PValue)) : Bool :=
  c.fields.all (fun f =>
    match assocLookup f.name d with
    | some v => fieldValOk f.ty v
    | none => false)

/-- A well-typed instance property list of a class: the (sorted) property
names in order, each with an admissible value. -/
def instPropsOk : List Field → List (String × PValue) → Bool
  | [], [] => true
  | f :: fs, (k, v) :: ps => (k == f.name) && fieldValOk f.ty v && instPropsOk fs ps
  | _, _ => false

/-- Whether a property type sends the nested-emission traversal into the class
whose emitted dehydrator carries the given name. -/
def resolvesToDehydrator (g : Graph) (fname : String) (t : PTyp) : Bool :=
  match getClassTypeFromType g t with
  | some cid =>
    match classOf g cid with
    | some c => dehydratorName c == fname
    | none => false
  | none => false

/-! ## Helper lemmas -/

theorem slotCount_le_one (hv : Bool) (o : Option α) : slotCount hv o ≤ 1 := by
  unfold slotCount; split <;> omega

theorem slotCount_zeroed (hv : Bool) (o : Option α) :
    slotCount hv (if hv then none else o) = 0 := by
  cases hv <;> simp [slotCount]

theorem slotCount_none (hv : Bool) : slotCount hv (none : Option α) = 0 := by
  cases hv <;> simp [slotCount]

theorem populatedCount_zeroed (u : UnionMembers) (x : UnionSlots) :
    populatedCount u (zeroScalars u (zeroCompounds u x)) = 0 := by
  simp [populatedCount, zeroScalars, zeroCompounds, slotCount_zeroed]

/-- Characterization of `unmarshalUnion` on a compound-zeroed state, as the
generated `UnmarshalJSON` calls it: a successful run leaves at most one slot
populated, and reports `object = true` only when the union has a class member,
in which case it assigns no slot at all (the class payload went into the
caller's local). -/
theorem unmarshalUnion_spec (u : UnionMembers) (x : UnionSlots) (tok : JsonTok)
    (object : Bool) (x1 : UnionSlots)
    (h : unmarshalUnion u (zeroCompounds u x) tok = .ok (object, x1)) :
    (object = false → populatedCount u x1 ≤ 1) ∧
    (object = true → u.haveObject = true ∧ x1 = zeroScalars u (zeroCompounds u x)) := by
  cases tok <;> simp only [unmarshalUnion] at h <;>
    (try split at h) <;> (try split at h) <;> (try split at h)
  all_goals try exact Except.noConfusion h
  all_goals simp only [Except.ok.injEq, Prod.mk.injEq] at h
  all_goals obtain ⟨hobj, hx1⟩ := h
  all_goals subst hobj
  all_goals subst hx1
  all_goals refine ⟨fun hh => ?_, fun hh => ?_⟩
  all_goals try simp at hh
  all_goals try exact ⟨by assumption, rfl⟩
  all_goals
    simp [populatedCount, zeroScalars, zeroCompounds, slotCount_zeroed, slotCount_le_one]

/-! ## Go union codec claims -/

/-- C9: after any invocation of the generated `UnmarshalJSON` that returns
without error, at most one member slot of the union struct is populated —
regardless of what the slots held before the call. -/
theorem unionUnmarshalJSON_at_most_one_populated
    (u : UnionMembers) (x : UnionSlots) (tok : JsonTok) (x' : UnionSlots)
    (h : unionUnmarshalJSON u x tok = .ok x') : populatedCount u x' ≤ 1 := by
  unfold unionUnmarshalJSON at h
  simp only at h
  cases hu : unmarshalUnion u (zeroCompounds u x) tok with
  | error e => rw [hu] at h; exact absurd h (by simp)
  | ok p =>
    obtain ⟨object, x1⟩ := p
    rw [hu] at h
    simp only [Except.ok.injEq] at h
    subst h
    have hs := unmarshalUnion_spec u x tok object x1 hu
    cases object with
    | false => simpa using hs.1 rfl
    | true =>
      obtain ⟨ho, hx⟩ := hs.2 rfl
      subst hx
      simp [ho, populatedCount, zeroScalars, zeroCompounds, slotCount_zeroed, slotCount_le_one]

/-- Witness for C9: a union with every member, the struct full of stale
values, decoding an integral number token: exactly the integer slot survives. -/
theorem unionUnmarshalJSON_at_most_one_populated_witness :
    unionUnmarshalJSON ⟨true, true, true, true, true, true, true, true, true⟩
        ⟨some 1, some 2, some true, some "s", some (), some (), some (), some ()⟩
        (.number true true) =
      .ok ⟨some 0, none, none, none, none, none, none, none⟩ ∧
    populatedCount ⟨true, true, true, true, true, true, true, true, true⟩
        ⟨some 0, none, none, none, none, none, none, none⟩ ≤ 1 :=
  ⟨rfl,
    unionUnmarshalJSON_at_most_one_populated
      ⟨true, true, true, true, true, true, true, true, true⟩
      ⟨some 1, some 2, some true, some "s", some (), some (), some (), some ()⟩
      (.number true true) ⟨some 0, none, none, none, none, none, none, none⟩ rfl⟩

/-- C3: on a JSON-object token, the generated `UnmarshalJSON` decodes into the
class member whenever one exists (populating the class slot, the map slot
staying nil); only when there is no class member does it decode into the map
member; and it fails when the union has neither. -/
theorem unionUnmarshalJSON_object_prefers_class (u : UnionMembers) (x : UnionSlots) :
    (u.haveObject = true →
      unionUnmarshalJSON u x .openBrace =
        .ok { zeroScalars u (zeroCompounds u x) with c := some () }) ∧
    (u.haveObject = false → u.haveMap = true →
      unionUnmarshalJSON u x .openBrace =
        .ok { zeroScalars u (zeroCompounds u x) with m := some () }) ∧
    (u.haveObject = false → u.haveMap = false →
      unionUnmarshalJSON u x .openBrace = .error "Union does not contain object") := by
  refine ⟨fun ho => ?_, fun ho hm => ?_, fun ho hm => ?_⟩
  · simp [unionUnmarshalJSON, unmarshalUnion, ho]
  · simp [unionUnmarshalJSON, unmarshalUnion, ho, hm]
  · simp [unionUnmarshalJSON, unmarshalUnion, ho, hm]

/-- Witness for C3: a union with both a class and a map member receives an
object token: the class slot is populated and the map slot (whatever it held)
ends up nil. -/
theorem unionUnmarshalJSON_object_prefers_class_witness :
    unionUnmarshalJSON ⟨false, false, false, false, false, true, true, false, false⟩
        ⟨none, none, none, none, none, none, some (), none⟩ .openBrace =
      .ok { zeroScalars ⟨false, false, false, false, false, true, true, false, false⟩
              (zeroCompounds ⟨false, false, false, false, false, true, true, false, false⟩
                ⟨none, none, none, none, none, none, some (), none⟩) with c := some () } ∧
    ({ zeroScalars ⟨false, false, false, false, false, true, true, false, false⟩
        (zeroCompounds ⟨false, false, false, false, false, true, true, false, false⟩
          ⟨none, none, none, none, none, none, some (), none⟩) with
        c := some () } : UnionSlots).m = none :=
  ⟨(unionUnmarshalJSON_object_prefers_class
      ⟨false, false, false, false, false, true, true, false, false⟩
      ⟨none, none, none, none, none, none, some (), none⟩).1 rfl, rfl⟩

/-- C4 (amended): the generated `MarshalJSON` serializes whichever single
member slot is populated, testing the slots in the fixed priority order
integer, double, bool, string, array, class, map, enum; when no slot is
populated it emits explicit null if the union is nullable and otherwise fails
with the error "Union must not be null". -/
theorem marshalUnion_priority (pi pf : Option Int) (pb : Option Bool) (ps : Option String)
    (ha ho hm he nu : Bool) :
    (∀ v, pi = some v →
      marshalUnion pi pf pb ps ha ho hm he nu = .ok (.fromInt v)) ∧
    (pi = none → ∀ v, pf = some v →
      marshalUnion pi pf pb ps ha ho hm he nu = .ok (.fromFloat v)) ∧
    (pi = none → pf = none → ∀ v, pb = some v →
      marshalUnion pi pf pb ps ha ho hm he nu = .ok (.fromBool v)) ∧
    (pi = none → pf = none → pb = none → ∀ v, ps = some v →
      marshalUnion pi pf pb ps ha ho hm he nu = .ok (.fromStr v)) ∧
    (pi = none → pf = none → pb = none → ps = none → ha = true →
      marshalUnion pi pf pb ps ha ho hm he nu = .ok .fromArray) ∧
    (pi = none → pf = none → pb = none → ps = none → ha = false → ho = true →
      marshalUnion pi pf pb ps ha ho hm he nu = .ok .fromObject) ∧
    (pi = none → pf = none → pb = none → ps = none → ha = false → ho = false →
      hm = true → marshalUnion pi pf pb ps ha ho hm he nu = .ok .fromMap) ∧
    (pi = none → pf = none → pb = none → ps = none → ha = false → ho = false →
      hm = false → he = true → marshalUnion pi pf pb ps ha ho hm he nu = .ok .fromEnum) ∧
    (pi = none → pf = none → pb = none → ps = none → ha = false → ho = false →
      hm = false → he = false → nu = true →
      marshalUnion pi pf pb ps ha ho hm he nu = .ok .nullValue) ∧
    (pi = none → pf = none → pb = none → ps = none → ha = false → ho = false →
      hm = false → he = false → nu = false →
      marshalUnion pi pf pb ps ha ho hm he nu = .error "Union must not be null") := by
  refine ⟨?_, ?_, ?_, ?_, ?_, ?_, ?_, ?_, ?_, ?_⟩
  all_goals intros
  all_goals subst_vars
  all_goals simp [marshalUnion]

/-- Witness for C4 (amended): a populated integer slot wins. -/
theorem marshalUnion_priority_witness :
    marshalUnion (some 5) (some 7) none none true false false false false =
      .ok (.fromInt 5) :=
  (marshalUnion_priority (some 5) (some 7) none none true false false false false).1 5 rfl

/-- C4 counterexample: with nothing populated and the union not nullable, the
emitted error message is "Union must not be null" — capitalized, so it is not
the string "union must not be null" the claim quotes. -/
theorem marshalUnion_error_message_capitalized :
    marshalUnion none none none none false false false false false =
      .error "Union must not be null" ∧
    "Union must not be null" ≠ "union must not be null" :=
  ⟨rfl, by decide⟩

/-! ## PHP transformed-string claims (C5) -/

/-- C5 counterexample: `phpType` renders a transformed string whose kind is
outside the four it enumerates — here `uri` — silently as plain `string`
instead of failing, contradicting "an unrecognized kind is never silently
passed through as a plain string". -/
theorem phpType_silent_string_fallthrough :
    phpType [] (.transformed "uri") false "?" "" = .ok "string" ∧
    ("uri" ≠ "time" ∧ "uri" ≠ "date" ∧ "uri" ≠ "date-time" ∧ "uri" ≠ "uuid") :=
  ⟨rfl, by decide⟩

/-- C5 (amended): `phpType` throws for the kinds `time`, `date` and `uuid`,
renders `date-time` as `DateTime`, and silently renders *every other* kind as
plain `string`; hydrate/dehydrate emission (`phpHydrateType`,
`phpDehydrateType`) throws for every kind other than `date-time`. -/
theorem phpTransformedString_behavior (g : Graph) (j kind : String)
    (isOpt : Bool) (pre suf : String) :
    (kind ≠ "time" → kind ≠ "date" → kind ≠ "date-time" → kind ≠ "uuid" →
      phpType g (.transformed kind) isOpt pre suf = .ok "string") ∧
    phpType g (.transformed "time") isOpt pre suf =
      .error "transformedStringType.kind === \"time\"" ∧
    phpType g (.transformed "date") isOpt pre suf =
      .error "transformedStringType.kind === \"date\"" ∧
    phpType g (.transformed "uuid") isOpt pre suf =
      .error "transformedStringType.kind === \"uuid\"" ∧
    phpType g (.transformed "date-time") isOpt pre suf = .ok "DateTime" ∧
    (kind ≠ "date-time" →
      phpHydrateType g j (.transformed kind) =
        .error "transformedStringType.kind === \"unknown\"" ∧
      phpDehydrateType g j (.transformed kind) =
        .error "transformedStringType.kind === \"unknown\"") ∧
    phpHydrateType g j (.transformed "date-time") = .ok .formatCall ∧
    phpDehydrateType g j (.transformed "date-time") = .ok .formatCall := by
  refine ⟨fun h1 h2 h3 h4 => ?_, rfl, rfl, rfl, rfl, fun h5 => ⟨?_, ?_⟩, rfl, rfl⟩
  · simp [phpType, h1, h2, h3, h4]
  · simp [phpHydrateType, h5]
  · simp [phpDehydrateType, h5]

/-- Witness for C5 (amended), at the unrecognized kind `uri`. -/
theorem phpTransformedString_behavior_witness :
    phpType [] (.transformed "uri") false "?" "" = .ok "string" ∧
    phpHydrateType [] "k" (.transformed "uri") =
      .error "transformedStringType.kind === \"unknown\"" :=
  ⟨(phpTransformedString_behavior [] "k" "uri" false "?" "").1
      (by decide) (by decide) (by decide) (by decide),
    ((phpTransformedString_behavior [] "k" "uri" false "?" "").2.2.2.2.2.1 (by decide)).1⟩

/-! ## Emission traversal claims (C6, C7) -/

/-- C7: on the self-referential class graph with a single class `A` whose
required field `a` has type `A` itself (a class cycle with no nullable break),
the nested-emission traversal never terminates: no amount of fuel completes
it.  The source has no cycle detection and no memoization —
`emitNestedHydrateDefinition` re-enters the same class unboundedly instead of
rejecting the graph. -/
theorem emitNestedHydrate_cyclic_never_terminates (fuel : Nat) :
    emitNestedHydrateDefinition fuel [⟨"A", "A", [⟨"a", "a", .classT 0⟩]⟩]
      [.classT 0] = none := by
  induction fuel with
  | zero => rfl
  | succ n ih =>
    simp [emitNestedHydrateDefinition, getClassTypeFromType, classOf,
      sortClassProperties, PTyp.isNullable, ih]

/-- C6 counterexample: in the graph where class `A`'s two fields `x` and `y`
both have type class `B`, the top-level dehydrate emission emits `dehydrateB`
twice — not once per distinct class identity. -/
theorem emitTopDehydrate_duplicate_emission :
    emitTopDehydrateNames 5
        [⟨"A", "A", [⟨"x", "x", .classT 1⟩, ⟨"y", "y", .classT 1⟩]⟩,
         ⟨"B", "B", [⟨"z", "z", .strT⟩]⟩]
        ⟨"A", "A", [⟨"x", "x", .classT 1⟩, ⟨"y", "y", .classT 1⟩]⟩ =
      some ["dehydrate", "dehydrateB", "dehydrateB"] ∧
    (["dehydrate", "dehydrateB", "dehydrateB"].count "dehydrateB") = 2 :=
  ⟨rfl, by decide⟩

/-- Every worklist entry that resolves to a class contributes its own emission
of that class's dehydrator: the traversal emits at least once per reaching. -/
theorem emitNestedDehydrate_count_ge (g : Graph) (fname : String) :
    ∀ (fuel : Nat) (ts : List PTyp) (out : List String),
      emitNestedDehydrateDefinition fuel g ts = some out →
      ts.countP (resolvesToDehydrator g fname) ≤ out.count fname := by
  intro fuel
  induction fuel with
  | zero =>
    intro ts out h
    exact absurd h (by simp [emitNestedDehydrateDefinition])
  | succ n ih =>
    intro ts out h
    cases ts with
    | nil =>
      simp only [emitNestedDehydrateDefinition, Option.some.injEq] at h
      subst h
      simp
    | cons t rest =>
      simp only [emitNestedDehydrateDefinition] at h
      split at h
      case h_1 heq1 =>
        have hres : resolvesToDehydrator g fname t = false := by
          simp [resolvesToDehydrator, heq1]
        have hle := ih rest out h
        simp [List.countP_cons, hres]
        omega
      case h_2 cid heq1 =>
        split at h
        case h_1 heq2 =>
          have hres : resolvesToDehydrator g fname t = false := by
            simp [resolvesToDehydrator, heq1, heq2]
          have hle := ih rest out h
          simp [List.countP_cons, hres]
          omega
        case h_2 c heq2 =>
          split at h
          case h_1 => exact absurd h (by simp)
          case h_2 emitted heq3 =>
            simp only [Option.some.injEq] at h
            subst h
            have hle := ih _ _ heq3
            have hsplit :
                ((sortClassProperties c.fields).map Field.ty ++ rest).countP
                    (resolvesToDehydrator g fname) =
                  ((sortClassProperties c.fields).map Field.ty).countP
                      (resolvesToDehydrator g fname) +
                    rest.countP (resolvesToDehydrator g fname) :=
              List.countP_append _ _ _
            have hres : resolvesToDehydrator g fname t = (dehydratorName c == fname) := by
              simp [resolvesToDehydrator, heq1, heq2]
            by_cases hbeq : dehydratorName c = fname
            · subst hbeq
              simp only [List.countP_cons, List.count_cons, hres, beq_self_eq_true,
                if_true] at *
              omega
            · have hbeq' : (dehydratorName c == fname) = false := by
                simpa using hbeq
              have hbeq'' : (fname == dehydratorName c) = false := by
                simp [beq_eq_false_iff_ne]
                exact fun hc => hbeq hc.symm
              simp only [List.countP_cons, List.count_cons, hres, hbeq', hbeq'',
                if_false] at *
              omega

/-- C6 (amended): the nested hydrator/dehydrator emission is not memoized —
it is performed once per *reaching*, so a class reached through several paths
is emitted once per path: whenever two (sorted) properties of the entry class
both resolve to the same class, that class's dehydrator appears at least twice
in the emission. -/
theorem emitTopDehydrate_once_per_reaching
    (g : Graph) (c ctgt : ClassDef) (cid : Nat)
    (pre mid post : List Field) (f1 f2 : Field)
    (hfs : sortClassProperties c.fields = pre ++ f1 :: mid ++ f2 :: post)
    (h1 : getClassTypeFromType g f1.ty = some cid)
    (h2 : getClassTypeFromType g f2.ty = some cid)
    (hc : classOf g cid = some ctgt)
    (fuel : Nat) (out : List String)
    (h : emitTopDehydrateNames fuel g c = some out) :
    2 ≤ out.count (dehydratorName ctgt) := by
  unfold emitTopDehydrateNames at h
  cases hrec : emitNestedDehydrateDefinition fuel g ((sortClassProperties c.fields).map Field.ty) with
  | none => rw [hrec] at h; exact absurd h (by simp)
  | some emitted =>
    rw [hrec] at h
    simp only [Option.some.injEq] at h
    subst h
    have hge := emitNestedDehydrate_count_ge g (dehydratorName ctgt) fuel _ _ hrec
    have hr1 : resolvesToDehydrator g (dehydratorName ctgt) f1.ty = true := by
      simp [resolvesToDehydrator, h1, hc]
    have hr2 : resolvesToDehydrator g (dehydratorName ctgt) f2.ty = true := by
      simp [resolvesToDehydrator, h2, hc]
    have hcount2 :
        2 ≤ ((sortClassProperties c.fields).map Field.ty).countP
          (resolvesToDehydrator g (dehydratorName ctgt)) := by
      rw [hfs]
      simp [List.countP_append, List.countP_cons, hr1, hr2]
      omega
    have : 2 ≤ emitted.count (dehydratorName ctgt) := le_trans hcount2 hge
    simp only [List.count_cons]
    omega

/-- Witness for C6 (amended): the two-field example emits `dehydrateB`
twice. -/
theorem emitTopDehydrate_once_per_reaching_witness :
    2 ≤ (["dehydrate", "dehydrateB", "dehydrateB"].count
          (dehydratorName ⟨"B", "B", [⟨"z", "z", .strT⟩]⟩)) :=
  emitTopDehydrate_once_per_reaching
    [⟨"A", "A", [⟨"x", "x", .classT 1⟩, ⟨"y", "y", .classT 1⟩]⟩,
     ⟨"B", "B", [⟨"z", "z", .strT⟩]⟩]
    ⟨"A", "A", [⟨"x", "x", .classT 1⟩, ⟨"y", "y", .classT 1⟩]⟩
    ⟨"B", "B", [⟨"z", "z", .strT⟩]⟩ 1
    [] [] [] ⟨"x", "x", .classT 1⟩ ⟨"y", "y", .classT 1⟩
    rfl rfl rfl rfl 5 ["dehydrate", "dehydrateB", "dehydrateB"] rfl

/-! ## Dehydrator structure claims (C10) -/

theorem dehydArgsOf_spec (g : Graph) (coal : Field → Bool) :
    ∀ (fs : List Field) (args : List DehydArg), dehydArgsOf g coal fs = .ok args →
      args.map (fun a => a.read.key) = fs.map Field.jsonName ∧
      args.map (fun a => a.read.coalesce) = fs.map coal := by
  intro fs
  induction fs with
  | nil =>
    intro args h
    simp only [dehydArgsOf, Except.ok.injEq] at h
    subst h
    simp
  | cons f rest ih =>
    intro args h
    simp only [dehydArgsOf] at h
    split at h
    · exact absurd h (by simp)
    · split at h
      · exact absurd h (by simp)
      · next args' heq =>
        simp only [Except.ok.injEq] at h
        subst h
        obtain ⟨hk, hc⟩ := ih args' heq
        simp [hk, hc]

/-- C10 (amended): nested class dehydrators perform no presence check and no
`?? null` coalescing, and their constructor arguments are keyed on the
original JSON field name (array-typed fields referencing a local variable
instead of reading the data, see the counterexample); the top-level dehydrate
adds presence checks keyed on the *resolved property name* while its reads are
keyed on the JSON name — and the two can differ, as the concrete class with
JSON name `my_name` resolving to `myName` shows. -/
theorem dehydrator_checks_and_reads :
    (∀ (g : Graph) (c : ClassDef) (d : DehydratorDesc),
      emitNestedDehydrateDesc g c = .ok d →
      d.checks = [] ∧
      (∀ a ∈ d.args, a.read.coalesce = false) ∧
      d.args.map (fun a => a.read.key) =
        (sortClassProperties c.fields).map Field.jsonName) ∧
    (∀ (g : Graph) (c : ClassDef) (d : DehydratorDesc),
      emitTopDehydrateDesc g c = .ok d →
      d.checks =
        ((sortClassProperties c.fields).filter (fun f => !f.ty.isNullable)).map Field.name ∧
      d.args.map (fun a => a.read.key) =
        (sortClassProperties c.fields).map Field.jsonName) ∧
    (emitTopDehydrateDesc [] ⟨"P", "P", [⟨"my_name", "myName", .strT⟩]⟩ =
        .ok ⟨["myName"], [⟨.fromArgs, ⟨"my_name", false⟩⟩]⟩ ∧
      "myName" ≠ "my_name") := by
  refine ⟨fun g c d h => ?_, fun g c d h => ?_, rfl, by decide⟩
  · unfold emitNestedDehydrateDesc at h
    split at h
    · exact absurd h (by simp)
    · next args heq =>
      simp only [Except.ok.injEq] at h
      subst h
      obtain ⟨hk, hc⟩ := dehydArgsOf_spec g (fun _ => false) _ args heq
      refine ⟨rfl, fun a ha => ?_, hk⟩
      have : a.read.coalesce ∈ args.map (fun a => a.read.coalesce) :=
        List.mem_map_of_mem _ ha
      rw [hc] at this
      have hrep : (sortClassProperties c.fields).map (fun _ => false) =
          List.replicate (sortClassProperties c.fields).length false := by
        simp [List.map_const]
      rw [hrep] at this
      exact List.eq_of_mem_replicate this
  · unfold emitTopDehydrateDesc at h
    split at h
    · exact absurd h (by simp)
    · next args heq =>
      simp only [Except.ok.injEq] at h
      subst h
      obtain ⟨hk, _⟩ := dehydArgsOf_spec g (fun f => f.ty.isNullable) _ args heq
      exact ⟨rfl, hk⟩

/-- Witness for C10 (amended): the nested dehydrator of a one-string-field
class has no checks, no coalescing, reads keyed by the JSON name. -/
theorem dehydrator_checks_and_reads_witness :
    (⟨[], [⟨.fromArgs, ⟨"a", false⟩⟩]⟩ : DehydratorDesc).checks = [] ∧
    (∀ a ∈ (⟨[], [⟨.fromArgs, ⟨"a", false⟩⟩]⟩ : DehydratorDesc).args,
      a.read.coalesce = false) ∧
    (⟨[], [⟨.fromArgs, ⟨"a", false⟩⟩]⟩ : DehydratorDesc).args.map (fun a => a.read.key) =
      (sortClassProperties (⟨"W", "W", [⟨"a", "a", .strT⟩]⟩ : ClassDef).fields).map
        Field.jsonName :=
  dehydrator_checks_and_reads.1 [] ⟨"W", "W", [⟨"a", "a", .strT⟩]⟩
    ⟨[], [⟨.fromArgs, ⟨"a", false⟩⟩]⟩ rfl

/-- C10 counterexample: for a class with an array-typed field, the nested
dehydrator's emitted constructor argument is the bare local variable
`$items` — not a read of `$data['items']` — so "reads every field
unconditionally as `$data['jsonName']`" fails for array-typed fields. -/
theorem nestedDehydrate_array_field_reads_local :
    emitNestedDehydrateDesc [] ⟨"K", "K", [⟨"items", "items", .arrayOf .strT⟩]⟩ =
      .ok ⟨[], [⟨.localArrayVar "items", ⟨"items", false⟩⟩]⟩ ∧
    EmitSrc.localArrayVar "items" ≠ EmitSrc.fromArgs :=
  ⟨rfl, by decide⟩

/-! ## Presence-check claims (C2) -/

/-- A successful constructor call keys the new instance's properties by the
field names, in order. -/
theorem bindCtorArgs_fst :
    ∀ (fs : List Field) (vs : List PValue) (ps : List (String × PValue)),
      bindCtorArgs fs vs = .ok ps → ps.map Prod.fst = fs.map Field.name := by
  intro fs
  induction fs with
  | nil =>
    intro vs ps h
    cases vs with
    | nil =>
      simp only [bindCtorArgs, Except.ok.injEq] at h
      subst h
      rfl
    | cons v vs' => simp [bindCtorArgs] at h
  | cons f rest ih =>
    intro vs ps h
    cases vs with
    | nil => simp [bindCtorArgs] at h
    | cons v vs' =>
      simp only [bindCtorArgs] at h
      split at h
      · exact Except.noConfusion h
      · split at h
        · exact Except.noConfusion h
        · next ps' hb =>
          simp only [Except.ok.injEq] at h
          subst h
          simp [ih vs' ps' hb]

/-- When every argument passes its parameter check unchanged, the constructor
builds exactly the zip of names and arguments. -/
theorem bindCtorArgs_exact :
    ∀ (fs : List Field) (vs : List PValue),
      List.Forall₂ (fun f v => coerceParam f.ty v = some v) fs vs →
      bindCtorArgs fs vs = .ok (List.zip (fs.map Field.name) vs) := by
  intro fs vs hall
  induction hall with
  | nil => rfl
  | @cons f0 v0 fs' vs' hco _ ih =>
    simp only [bindCtorArgs, hco, ih, List.map_cons, List.zip_cons_cons]

theorem ctorScalar_scalarBase (ty : PTyp) (h : ctorScalar ty = true) :
    scalarBase ty = true := by
  cases ty <;> simp_all [ctorScalar, scalarBase]

theorem simpleTy_of_ctorSimple (ty : PTyp) (h : ctorSimpleTy ty = true) :
    simpleTy ty = true := by
  cases ty <;>
    simp_all [ctorSimpleTy, simpleTy] <;>
    exact ctorScalar_scalarBase _ h

/-- A shape-admissible value of a constructor-safe field type passes the
parameter check unchanged. -/
theorem coerceParam_exact (ty : PTyp) (v : PValue)
    (hc : ctorSimpleTy ty = true) (hv : fieldValOk ty v = true) :
    coerceParam ty v = some v := by
  cases ty
  case boolT => cases v <;> simp_all [fieldValOk, scalarShape, coerceParam]
  case doubleT => cases v <;> simp_all [fieldValOk, scalarShape, coerceParam]
  case strT => cases v <;> simp_all [fieldValOk, scalarShape, coerceParam]
  case nullable inner =>
    cases inner <;> simp only [ctorSimpleTy, ctorScalar] at hc <;>
      cases v <;> simp_all [fieldValOk, scalarShape, coerceParam]
  all_goals simp [ctorSimpleTy, ctorScalar] at hc

theorem assocLookup_eq_none (k : String) :
    ∀ l : List (String × PValue), assocLookup k l = none ↔ k ∉ l.map Prod.fst := by
  intro l
  induction l with
  | nil => simp [assocLookup]
  | cons p rest ih =>
    obtain ⟨k', v⟩ := p
    by_cases hk : k' = k
    · subst hk
      simp [assocLookup]
    · simp [assocLookup, hk, ih, Ne.symm hk]

theorem assocLookup_map_self (gv : Field → PValue) :
    ∀ (fs : List Field) (f : Field), (fs.map Field.name).Nodup → f ∈ fs →
      assocLookup f.name (fs.map (fun f' => (f'.name, gv f'))) = some (gv f) := by
  intro fs
  induction fs with
  | nil => intro f _ hf; exact absurd hf (by simp)
  | cons f0 rest ih =>
    intro f hnd hf
    simp only [List.map_cons, List.nodup_cons] at hnd
    rcases List.mem_cons.mp hf with hf0 | hfr
    · subst hf0
      simp [assocLookup]
    · have hne : f0.name ≠ f.name := by
        intro hcontra
        exact hnd.1 (hcontra ▸ List.mem_map_of_mem Field.name hfr)
      simp only [List.map_cons, assocLookup, if_neg hne]
      exact ih f hnd.2 hfr

theorem simpleTy_not_array (f : Field) (hs : simpleTy f.ty = true) :
    isArrayField f = false := by
  unfold isArrayField
  cases hty : f.ty <;> rw [hty] at hs <;> simp [simpleTy, scalarBase] at hs <;>
    simp [unwrapNullable]
  next inner =>
    cases inner <;> simp_all [scalarBase]

theorem dArg_scalar (g : Graph) (ty : PTyp) (j : String)
    (locals data : List (String × PValue)) (hs : scalarBase ty = true) :
    ∀ m, 1 ≤ m → phpRun m g (.dArg ty j locals data) = .ok (.one (phpRead data j)) := by
  intro m hm
  obtain ⟨m', rfl⟩ : ∃ m', m = m' + 1 := ⟨m - 1, by omega⟩
  cases ty <;> simp_all [phpRun, scalarBase]

theorem dArg_simple (g : Graph) (ty : PTyp) (j : String)
    (locals data : List (String × PValue)) (hs : simpleTy ty = true) :
    ∀ m, 2 ≤ m → phpRun m g (.dArg ty j locals data) = .ok (.one (phpRead data j)) := by
  intro m hm
  obtain ⟨m', rfl⟩ : ∃ m', m = m' + 1 := ⟨m - 1, by omega⟩
  cases ty
  case nullable inner =>
    have hsc : scalarBase inner = true := by simpa [simpleTy] using hs
    have h1 := dArg_scalar g inner j locals data hsc m' (by omega)
    simp [phpRun, h1]
  all_goals
    exact dArg_scalar g _ j locals data (by simpa [simpleTy] using hs) _ (by omega)

theorem hArg_scalar (g : Graph) (ty : PTyp) (j pname : String)
    (locals props : List (String × PValue)) (hs : scalarBase ty = true) :
    ∀ m, 1 ≤ m →
      phpRun m g (.hArg ty j pname locals props) = .ok (.one (phpRead props pname)) := by
  intro m hm
  obtain ⟨m', rfl⟩ : ∃ m', m = m' + 1 := ⟨m - 1, by omega⟩
  cases ty <;> simp_all [phpRun, scalarBase]

theorem hArg_simple (g : Graph) (ty : PTyp) (j pname : String)
    (locals props : List (String × PValue)) (hs : simpleTy ty = true) :
    ∀ m, 2 ≤ m →
      phpRun m g (.hArg ty j pname locals props) = .ok (.one (phpRead props pname)) := by
  intro m hm
  obtain ⟨m', rfl⟩ : ∃ m', m = m' + 1 := ⟨m - 1, by omega⟩
  cases ty
  case nullable inner =>
    have hsc : scalarBase inner = true := by simpa [simpleTy] using hs
    have h1 := hArg_scalar g inner j pname locals props hsc m' (by omega)
    simp [phpRun, h1]
  all_goals
    exact hArg_scalar g _ j pname locals props (by simpa [simpleTy] using hs) _ (by omega)

theorem dArgs_simple (g : Graph) (locals data : List (String × PValue)) :
    ∀ (fs : List Field), (∀ f ∈ fs, simpleTy f.ty = true) →
      ∀ m, fs.length + 2 ≤ m →
        phpRun m g (.dArgs fs locals data) =
          .ok (.many (fs.map (fun f => phpRead data f.jsonName))) := by
  intro fs
  induction fs with
  | nil =>
    intro _ m hm
    obtain ⟨m', rfl⟩ : ∃ m', m = m' + 1 := ⟨m - 1, by omega⟩
    simp [phpRun]
  | cons f rest ih =>
    intro hall m hm
    obtain ⟨m', rfl⟩ : ∃ m', m = m' + 1 := ⟨m - 1, by omega⟩
    have h1 := dArg_simple g f.ty f.jsonName locals data
      (hall f (List.mem_cons_self f rest)) m' (by simp at hm; omega)
    have h2 := ih (fun f' hf' => hall f' (List.mem_cons_of_mem f hf')) m'
      (by simp at hm ⊢; omega)
    simp [phpRun, h1, h2]

theorem hArgs_simple (g : Graph) (locals props : List (String × PValue)) :
    ∀ (fs : List Field), (∀ f ∈ fs, simpleTy f.ty = true) →
      ∀ m, fs.length + 2 ≤ m →
        phpRun m g (.hArgs fs locals props) =
          .ok (.many (fs.map (fun f => phpRead props f.name))) := by
  intro fs
  induction fs with
  | nil =>
    intro _ m hm
    obtain ⟨m', rfl⟩ : ∃ m', m = m' + 1 := ⟨m - 1, by omega⟩
    simp [phpRun]
  | cons f rest ih =>
    intro hall m hm
    obtain ⟨m', rfl⟩ : ∃ m', m = m' + 1 := ⟨m - 1, by omega⟩
    have h1 := hArg_simple g f.ty f.jsonName f.name locals props
      (hall f (List.mem_cons_self f rest)) m' (by simp at hm; omega)
    have h2 := ih (fun f' hf' => hall f' (List.mem_cons_of_mem f hf')) m'
      (by simp at hm ⊢; omega)
    simp [phpRun, h1, h2]

theorem dLocals_no_array (g : Graph) (data : List (String × PValue)) :
    ∀ (fs : List Field), (∀ f ∈ fs, isArrayField f = false) →
      ∀ m, fs.length + 1 ≤ m →
        phpRun m g (.dLocals fs data) = .ok (.bindings []) := by
  intro fs
  induction fs with
  | nil =>
    intro _ m hm
    obtain ⟨m', rfl⟩ : ∃ m', m = m' + 1 := ⟨m - 1, by omega⟩
    simp [phpRun]
  | cons f rest ih =>
    intro hall m hm
    obtain ⟨m', rfl⟩ : ∃ m', m = m' + 1 := ⟨m - 1, by omega⟩
    have h2 := ih (fun f' hf' => hall f' (List.mem_cons_of_mem f hf')) m'
      (by simp at hm ⊢; omega)
    have hna := hall f (List.mem_cons_self f rest)
    unfold isArrayField at hna
    simp only [phpRun]
    split
    · next item heq => rw [heq] at hna; simp at hna
    · exact h2

theorem hLocals_no_array (g : Graph) (props : List (String × PValue)) :
    ∀ (fs : List Field), (∀ f ∈ fs, isArrayField f = false) →
      ∀ m, fs.length + 1 ≤ m →
        phpRun m g (.hLocals fs props) = .ok (.bindings []) := by
  intro fs
  induction fs with
  | nil =>
    intro _ m hm
    obtain ⟨m', rfl⟩ : ∃ m', m = m' + 1 := ⟨m - 1, by omega⟩
    simp [phpRun]
  | cons f rest ih =>
    intro hall m hm
    obtain ⟨m', rfl⟩ : ∃ m', m = m' + 1 := ⟨m - 1, by omega⟩
    have h2 := ih (fun f' hf' => hall f' (List.mem_cons_of_mem f hf')) m'
      (by simp at hm ⊢; omega)
    have hna := hall f (List.mem_cons_self f rest)
    unfold isArrayField at hna
    simp only [phpRun]
    split
    · next item heq => rw [heq] at hna; simp at hna
    · exact h2

theorem sortClassProperties_perm (fs : List Field) : List.Perm (sortClassProperties fs) fs := by
  have h := List.filter_append_perm (fun f => !f.ty.isNullable) fs
  simpa [sortClassProperties, Bool.not_not] using h

theorem mem_sortClassProperties (f : Field) (fs : List Field) :
    f ∈ sortClassProperties fs ↔ f ∈ fs :=
  (sortClassProperties_perm fs).mem_iff

theorem sortClassProperties_names_nodup (c : ClassDef)
    (hnd : (c.fields.map Field.name).Nodup) :
    ((sortClassProperties c.fields).map Field.name).Nodup :=
  (((sortClassProperties_perm c.fields).map Field.name).nodup_iff).mpr hnd

theorem forall2_zip_lookup (R : Field → PValue → Prop) :
    ∀ (fs : List Field) (vs : List PValue), List.Forall₂ R fs vs →
      (fs.map Field.name).Nodup → ∀ f ∈ fs,
        ∃ v, assocLookup f.name (List.zip (fs.map Field.name) vs) = some v ∧ R f v := by
  intro fs vs hall
  induction hall with
  | nil => intro _ f hf; exact absurd hf (by simp)
  | @cons f0 v0 fs' vs' hR hrest ih =>
    intro hnd f hf
    rcases List.mem_cons.mp hf with rfl | hfr
    · exact ⟨v0, by simp [assocLookup], hR⟩
    · have hnd' : (fs'.map Field.name).Nodup := by
        simp only [List.map_cons, List.nodup_cons] at hnd
        exact hnd.2
      have hne : f0.name ≠ f.name := by
        simp only [List.map_cons, List.nodup_cons] at hnd
        intro hc
        exact hnd.1 (hc ▸ List.mem_map_of_mem Field.name hfr)
      obtain ⟨v, hv, hRv⟩ := ih hnd' f hfr
      exact ⟨v, by simpa [assocLookup, if_neg hne] using hv, hRv⟩

/-- The dehydrate side of the interpreter reads the incoming `$data` only
through key lookups, so two data lists that agree as finite maps are
indistinguishable. -/
theorem phpRun_data_congr (g : Graph) :
    ∀ (fuel : Nat) (data data' : List (String × PValue)),
      (∀ k, assocLookup k data = assocLookup k data') →
      (∀ (ty : PTyp) (j : String) (locals : List (String × PValue)),
        phpRun fuel g (.dArg ty j locals data) = phpRun fuel g (.dArg ty j locals data')) ∧
      (∀ (fs : List Field) (locals : List (String × PValue)),
        phpRun fuel g (.dArgs fs locals data) = phpRun fuel g (.dArgs fs locals data')) ∧
      (∀ fs : List Field,
        phpRun fuel g (.dLocals fs data) = phpRun fuel g (.dLocals fs data')) := by
  intro fuel
  induction fuel with
  | zero => intro data data' h; exact ⟨fun _ _ _ => rfl, fun _ _ => rfl, fun _ => rfl⟩
  | succ n ih =>
    intro data data' h
    have hread : ∀ k, phpRead data k = phpRead data' k := fun k => by
      simp [phpRead, h k]
    refine ⟨?_, ?_, ?_⟩
    · intro ty j locals
      cases ty
      case nullable inner => exact (ih data data' h).1 inner j locals
      all_goals simp only [phpRun, hread]
    · intro fs locals
      cases fs with
      | nil => rfl
      | cons f rest =>
        simp only [phpRun, (ih data data' h).1, (ih data data' h).2.1]
    · intro fs
      cases fs with
      | nil => rfl
      | cons f rest =>
        simp only [phpRun, hread, (ih data data' h).2.2]

/-- The constructed value's property list is keyed by the class's sorted
property names, in order. -/
theorem dehydrate_keys_sorted (fuel : Nat) (g : Graph) (c : ClassDef)
    (data ps : List (String × PValue))
    (h : dehydrate fuel g c data = .ok (.objV ps)) :
    ps.map Prod.fst = (sortClassProperties c.fields).map Field.name := by
  simp only [dehydrate] at h
  split at h
  all_goals try (exact Except.noConfusion h)
  split at h
  all_goals try (exact Except.noConfusion h)
  next locals heqLoc =>
    split at h
    all_goals try (exact Except.noConfusion h)
    next vs heqArgs =>
      split at h
      all_goals try (exact Except.noConfusion h)
      next ps' heqBind =>
        simp only [Except.ok.injEq, PValue.objV.injEq] at h
        subst h
        exact bindCtorArgs_fst _ _ _ heqBind

/-- C8 (amended): the typed value constructed by dehydrate presents fields in
the renderer's sorted property order — the stable sort placing non-nullable
fields before nullable ones, which is also the order the generated class
declares them in — regardless of the key order of the generic value: inputs
equal as finite maps dehydrate identically. -/
theorem dehydrate_output_order (fuel : Nat) (g : Graph) (c : ClassDef)
    (data data' ps : List (String × PValue)) :
    (dehydrate fuel g c data = .ok (.objV ps) →
      ps.map Prod.fst = (sortClassProperties c.fields).map Field.name) ∧
    ((∀ k, assocLookup k data = assocLookup k data') →
      dehydrate fuel g c data = dehydrate fuel g c data') := by
  refine ⟨fun h => dehydrate_keys_sorted fuel g c data ps h, fun h => ?_⟩
  have hisset : ∀ k, phpIsset data k = phpIsset data' k := fun k => by
    simp [phpIsset, h k]
  have hc := phpRun_data_congr g fuel data data' h
  simp only [dehydrate, hisset, hc.2.1, hc.2.2]

/-- Witness for C8 (amended): the two-field class, fields declared nullable
`a` before required `b`, constructs in the order `b`, `a`. -/
theorem dehydrate_output_order_witness :
    [("b", PValue.strV "2"), ("a", PValue.strV "1")].map Prod.fst =
      (sortClassProperties
        (⟨"C", "C", [⟨"a", "a", .nullable .strT⟩, ⟨"b", "b", .strT⟩]⟩ : ClassDef).fields).map
        Field.name :=
  (dehydrate_output_order 9 [] ⟨"C", "C", [⟨"a", "a", .nullable .strT⟩, ⟨"b", "b", .strT⟩]⟩
    [("a", .strV "1"), ("b", .strV "2")] []
    [("b", PValue.strV "2"), ("a", PValue.strV "1")]).1 rfl

/-- C8 counterexample: for the class declaring nullable `a` before required
`b`, dehydrate constructs the value with `b` first — not in the class's
declared field order. -/
theorem dehydrate_not_declared_order :
    dehydrate 9 [] ⟨"C", "C", [⟨"a", "a", .nullable .strT⟩, ⟨"b", "b", .strT⟩]⟩
        [("a", .strV "1"), ("b", .strV "2")] =
      .ok (.objV [("b", .strV "2"), ("a", .strV "1")]) ∧
    [("b", PValue.strV "2"), ("a", PValue.strV "1")].map Prod.fst ≠
      ((⟨"C", "C", [⟨"a", "a", .nullable .strT⟩, ⟨"b", "b", .strT⟩]⟩ : ClassDef).fields).map
        Field.name :=
  ⟨rfl, by decide⟩

theorem scalarBase_of_simple_not_nullable (ty : PTyp) (hs : simpleTy ty = true)
    (hnn : ty.isNullable = false) : scalarBase ty = true := by
  cases ty <;> simp_all [simpleTy, PTyp.isNullable]

theorem fieldValOk_scalar (ty : PTyp) (v : PValue) (hsc : scalarBase ty = true) :
    fieldValOk ty v = scalarShape ty v := by
  cases ty <;> simp_all [scalarBase, fieldValOk]

theorem phpIsset_of_scalar (data : List (String × PValue)) (k : String)
    (v : PValue) (ty : PTyp) (hl : assocLookup k data = some v)
    (hs : scalarShape ty v = true) : phpIsset data k = true := by
  unfold phpIsset
  rw [hl]
  cases v <;> cases ty <;> simp_all [scalarShape]

theorem phpRead_map_self (gv : Field → PValue) (fs : List Field) (f : Field)
    (hnd : (fs.map Field.name).Nodup) (hf : f ∈ fs) :
    phpRead (fs.map (fun f' => (f'.name, gv f'))) f.name = gv f := by
  simp [phpRead, assocLookup_map_self gv fs f hnd hf]

theorem map_self_of_fst_eq :
    ∀ (fs : List Field) (ps : List (String × PValue)),
      ps.map Prod.fst = fs.map Field.name → (fs.map Field.name).Nodup →
      ps = fs.map (fun f => (f.name, phpRead ps f.name)) := by
  intro fs
  induction fs with
  | nil =>
    intro ps hfst _
    have : ps.map Prod.fst = [] := by simpa using hfst
    simpa using List.map_eq_nil_iff.mp this
  | cons f rest ih =>
    intro ps hfst hnd
    cases ps with
    | nil => simp at hfst
    | cons p ps' =>
      obtain ⟨k, v⟩ := p
      simp only [List.map_cons, List.cons.injEq] at hfst
      obtain ⟨hk, hrest⟩ := hfst
      subst hk
      simp only [List.map_cons, List.nodup_cons] at hnd
      have hps' := ih ps' hrest hnd.2
      have hcongr : rest.map (fun f' => (f'.name, phpRead ps' f'.name)) =
          rest.map (fun f' => (f'.name, phpRead ((f.name, v) :: ps') f'.name)) := by
        apply List.map_congr_left
        intro f' hf'
        have hne : f.name ≠ f'.name := by
          intro hc
          exact hnd.1 (hc ▸ List.mem_map_of_mem Field.name hf')
        simp [phpRead, assocLookup, if_neg hne]
      simp only [List.map_cons]
      refine List.cons_eq_cons.mpr ⟨?_, ?_⟩
      · simp [phpRead, assocLookup]
      · rw [← hcongr]
        exact hps'

theorem instPropsOk_spec :
    ∀ (fs : List Field) (ps : List (String × PValue)), instPropsOk fs ps = true →
      ps.map Prod.fst = fs.map Field.name ∧
      List.Forall₂ (fun f p => fieldValOk f.ty p.2 = true) fs ps := by
  intro fs
  induction fs with
  | nil =>
    intro ps h
    cases ps with
    | nil => exact ⟨rfl, List.Forall₂.nil⟩
    | cons p ps' => simp [instPropsOk] at h
  | cons f rest ih =>
    intro ps h
    cases ps with
    | nil => simp [instPropsOk] at h
    | cons p ps' =>
      obtain ⟨k, v⟩ := p
      simp only [instPropsOk, Bool.and_eq_true, beq_iff_eq] at h
      obtain ⟨⟨hk, hv⟩, hrest⟩ := h
      obtain ⟨hfst, hall⟩ := ih ps' hrest
      subst hk
      exact ⟨by simp [hfst], List.Forall₂.cons hv hall⟩

/-- Closed form of the top-level hydrate on a class whose fields are all
verbatim scalars (or nullable scalars): hydrating a normalized instance copies
it verbatim. -/
theorem hydrate_simple (g : Graph) (c : ClassDef) (gv : Field → PValue)
    (hnd : (c.fields.map Field.name).Nodup)
    (hsimple : ∀ f ∈ c.fields, simpleTy f.ty = true)
    (fuel : Nat) (hfuel : c.fields.length + 2 ≤ fuel) :
    hydrate fuel g c
        (.objV ((sortClassProperties c.fields).map (fun f => (f.name, gv f)))) =
      .ok (.objV ((sortClassProperties c.fields).map (fun f => (f.name, gv f)))) := by
  have hlen : (sortClassProperties c.fields).length = c.fields.length :=
    (sortClassProperties_perm c.fields).length_eq
  have hsimple' : ∀ f ∈ sortClassProperties c.fields, simpleTy f.ty = true :=
    fun f hf => hsimple f ((mem_sortClassProperties f c.fields).mp hf)
  have hnd' := sortClassProperties_names_nodup c hnd
  have hloc := hLocals_no_array g
    ((sortClassProperties c.fields).map (fun f => (f.name, gv f)))
    (sortClassProperties c.fields)
    (fun f hf => simpleTy_not_array f (hsimple' f hf)) fuel (by omega)
  have hargs := hArgs_simple g []
    ((sortClassProperties c.fields).map (fun f => (f.name, gv f)))
    (sortClassProperties c.fields) hsimple' fuel (by omega)
  have hreads : (sortClassProperties c.fields).map
      (fun f => phpRead
        ((sortClassProperties c.fields).map (fun f' => (f'.name, gv f'))) f.name) =
      (sortClassProperties c.fields).map gv :=
    List.map_congr_left (fun f hf => phpRead_map_self gv _ f hnd' hf)
  simp only [hydrate, hloc, hargs, hreads]
  rw [List.zip_map']

/-- Closed form of the top-level dehydrate on a class whose fields are all
constructor-safe verbatim scalars (or nullable such scalars) with JSON names
equal to the resolved property names, against data in which every field holds
an admissible value: every argument passes the generated constructor's
parameter check, and the constructed instance pairs the sorted property names
with the values read from the data. -/
theorem dehydrate_simple (g : Graph) (c : ClassDef)
    (data : List (String × PValue))
    (hctor : ∀ f ∈ c.fields, ctorSimpleTy f.ty = true)
    (hjson : ∀ f ∈ c.fields, f.jsonName = f.name)
    (hvals : ∀ f ∈ c.fields, ∃ v, assocLookup f.name data = some v ∧
      fieldValOk f.ty v = true)
    (fuel : Nat) (hfuel : c.fields.length + 2 ≤ fuel) :
    dehydrate fuel g c data =
      .ok (.objV ((sortClassProperties c.fields).map
        (fun f => (f.name, phpRead data f.name)))) := by
  have hsimple : ∀ f ∈ c.fields, simpleTy f.ty = true :=
    fun f hf => simpleTy_of_ctorSimple f.ty (hctor f hf)
  have hlen : (sortClassProperties c.fields).length = c.fields.length :=
    (sortClassProperties_perm c.fields).length_eq
  have hsimple' : ∀ f ∈ sortClassProperties c.fields, simpleTy f.ty = true :=
    fun f hf => hsimple f ((mem_sortClassProperties f c.fields).mp hf)
  have hfind : (sortClassProperties c.fields).find?
      (fun f => !f.ty.isNullable && !phpIsset data f.name) = none := by
    rw [List.find?_eq_none]
    intro f hf
    have hfm := (mem_sortClassProperties f c.fields).mp hf
    cases hty : f.ty.isNullable with
    | true => simp [hty]
    | false =>
      have hsc := scalarBase_of_simple_not_nullable f.ty (hsimple f hfm) hty
      obtain ⟨v, hl, hok⟩ := hvals f hfm
      rw [fieldValOk_scalar f.ty v hsc] at hok
      simp [phpIsset_of_scalar data f.name v f.ty hl hok]
  have hloc := dLocals_no_array g data (sortClassProperties c.fields)
    (fun f hf => simpleTy_not_array f (hsimple' f hf)) fuel (by omega)
  have hargs := dArgs_simple g [] data (sortClassProperties c.fields) hsimple'
    fuel (by omega)
  have hjs : (sortClassProperties c.fields).map (fun f => phpRead data f.jsonName) =
      (sortClassProperties c.fields).map (fun f => phpRead data f.name) :=
    List.map_congr_left (fun f hf => by
      rw [hjson f ((mem_sortClassProperties f c.fields).mp hf)])
  rw [hjs] at hargs
  have hbind : bindCtorArgs (sortClassProperties c.fields)
      ((sortClassProperties c.fields).map (fun f => phpRead data f.name)) =
      .ok (List.zip ((sortClassProperties c.fields).map Field.name)
        ((sortClassProperties c.fields).map (fun f => phpRead data f.name))) := by
    apply bindCtorArgs_exact
    rw [List.forall₂_map_right_iff]
    apply List.forall₂_same.mpr
    intro f hf
    have hfm := (mem_sortClassProperties f c.fields).mp hf
    obtain ⟨v, hl, hok⟩ := hvals f hfm
    have hrv : phpRead data f.name = v := by simp [phpRead, hl]
    rw [hrv]
    exact coerceParam_exact f.ty v (hctor f hfm) hok
  simp only [dehydrate, hfind, hloc, hargs, hbind]
  rw [List.zip_map']

/-- C1 (amended): for a class whose fields are verbatim bool, double or
string scalars or canonical nullable unions of these — integer fields are
excluded, since `phpType` declares their constructor parameter as `long`, an
undefined class name that rejects every argument under
`declare(strict_types=1)` — with pairwise-distinct property names each equal
to its JSON name, hydrate and dehydrate are mutual inverses: (a) a generic
value whose keys are exactly the property names, holding shape-correct
values, dehydrates to an instance that hydrates back to itself and equals the
input up to field reordering (same keys as a multiset, same lookups); and
(b) a well-typed instance hydrates to itself and dehydrates back to itself.
(The claim is false without these restrictions — see the counterexample,
where a field whose JSON name differs from its resolved property name makes
the round trip throw a `TypeError`.) -/
theorem hydrate_dehydrate_roundtrip (g : Graph) (c : ClassDef) (fuel : Nat)
    (hnd : (c.fields.map Field.name).Nodup)
    (hsimple : ∀ f ∈ c.fields, f.jsonName = f.name ∧ ctorSimpleTy f.ty = true)
    (hfuel : c.fields.length + 2 ≤ fuel) :
    (∀ data : List (String × PValue),
      (data.map Prod.fst).Perm (c.fields.map Field.name) →
      dataFieldsOk c data = true →
      ∃ ps, dehydrate fuel g c data = .ok (.objV ps) ∧
        hydrate fuel g c (.objV ps) = .ok (.objV ps) ∧
        (ps.map Prod.fst).Perm (data.map Prod.fst) ∧
        (∀ k, assocLookup k ps = assocLookup k data)) ∧
    (∀ ps : List (String × PValue),
      instPropsOk (sortClassProperties c.fields) ps = true →
      hydrate fuel g c (.objV ps) = .ok (.objV ps) ∧
      dehydrate fuel g c ps = .ok (.objV ps)) := by
  have hnd' := sortClassProperties_names_nodup c hnd
  have hctor : ∀ f ∈ c.fields, ctorSimpleTy f.ty = true := fun f hf => (hsimple f hf).2
  have hsim : ∀ f ∈ c.fields, simpleTy f.ty = true :=
    fun f hf => simpleTy_of_ctorSimple f.ty (hctor f hf)
  have hjson : ∀ f ∈ c.fields, f.jsonName = f.name := fun f hf => (hsimple f hf).1
  have hnames : ((sortClassProperties c.fields).map Field.name).Perm
      (c.fields.map Field.name) := (sortClassProperties_perm c.fields).map Field.name
  refine ⟨fun data hperm hok => ?_, fun ps hinst => ?_⟩
  · have hvals : ∀ f ∈ c.fields, ∃ v, assocLookup f.name data = some v ∧
        fieldValOk f.ty v = true := by
      intro f hf
      have := (List.all_eq_true.mp hok) f hf
      cases hl : assocLookup f.name data with
      | none => rw [hl] at this; simp at this
      | some v => rw [hl] at this; exact ⟨v, rfl, this⟩
    refine ⟨(sortClassProperties c.fields).map (fun f => (f.name, phpRead data f.name)),
      dehydrate_simple g c data hctor hjson hvals fuel hfuel,
      hydrate_simple g c (fun f => phpRead data f.name) hnd hsim fuel hfuel, ?_, ?_⟩
    · have hkeys : ((sortClassProperties c.fields).map
          (fun f => (f.name, phpRead data f.name))).map Prod.fst =
          (sortClassProperties c.fields).map Field.name := by
        simp [List.map_map, Function.comp]
      rw [hkeys]
      exact hnames.trans hperm.symm
    · intro k
      by_cases hk : k ∈ c.fields.map Field.name
      · obtain ⟨f, hf, hfk⟩ := List.mem_map.mp hk
        subst hfk
        have hfs : f ∈ sortClassProperties c.fields :=
          (mem_sortClassProperties f c.fields).mpr hf
        rw [assocLookup_map_self (fun f' => phpRead data f'.name) _ f hnd' hfs]
        obtain ⟨v, hl, _⟩ := hvals f hf
        rw [hl]
        simp [phpRead, hl]
      · have h1 : assocLookup k ((sortClassProperties c.fields).map
            (fun f => (f.name, phpRead data f.name))) = none := by
          rw [assocLookup_eq_none]
          simp only [List.map_map]
          intro hc
          exact hk ((hnames.mem_iff).mp (by simpa [Function.comp] using hc))
        have h2 : assocLookup k data = none := by
          rw [assocLookup_eq_none]
          intro hc
          exact hk (hperm.mem_iff.mp hc)
        rw [h1, h2]
  · obtain ⟨hfst, hall2⟩ := instPropsOk_spec _ ps hinst
    have hfstnames : ps.map Prod.fst = (sortClassProperties c.fields).map Field.name :=
      hfst
    have hps := map_self_of_fst_eq (sortClassProperties c.fields) ps hfstnames hnd'
    constructor
    · conv_lhs => rw [hps]
      conv_rhs => rw [hps]
      exact hydrate_simple g c (fun f => phpRead ps f.name) hnd hsim fuel hfuel
    · have hall2' := hall2
      rw [hps, List.forall₂_map_right_iff] at hall2'
      have hvalsS := List.forall₂_same.mp hall2'
      have hvals : ∀ f ∈ c.fields, ∃ v, assocLookup f.name ps = some v ∧
          fieldValOk f.ty v = true := by
        intro f hf
        have hfs : f ∈ sortClassProperties c.fields :=
          (mem_sortClassProperties f c.fields).mpr hf
        have hlook := assocLookup_map_self (fun f' => phpRead ps f'.name)
          (sortClassProperties c.fields) f hnd' hfs
        rw [← hps] at hlook
        exact ⟨phpRead ps f.name, hlook, hvalsS f hfs⟩
      have hres := dehydrate_simple g c ps hctor hjson hvals fuel hfuel
      rw [hres, ← hps]

/-- Witness for C1 (amended): the two-field scalar class round-trips the
generic value whose keys are its property names. -/
theorem hydrate_dehydrate_roundtrip_witness :
    ∃ ps, dehydrate 10 [] ⟨"C", "C", [⟨"a", "a", .strT⟩, ⟨"b", "b", .nullable .doubleT⟩]⟩
        [("a", .strV "x"), ("b", .nullV)] = .ok (.objV ps) ∧
      hydrate 10 [] ⟨"C", "C", [⟨"a", "a", .strT⟩, ⟨"b", "b", .nullable .doubleT⟩]⟩
        (.objV ps) = .ok (.objV ps) ∧
      (ps.map Prod.fst).Perm ([("a", PValue.strV "x"), ("b", PValue.nullV)].map Prod.fst) ∧
      (∀ k, assocLookup k ps =
        assocLookup k [("a", PValue.strV "x"), ("b", PValue.nullV)]) :=
  (hydrate_dehydrate_roundtrip [] ⟨"C", "C", [⟨"a", "a", .strT⟩, ⟨"b", "b", .nullable .doubleT⟩]⟩
    10 (by decide) (by decide) (by decide)).1
    [("a", .strV "x"), ("b", .nullV)] (List.Perm.refl _) (by decide)

/-- C1 counterexample: for the class whose single required string field has
JSON name `my_name` but resolved property name `myName` (exactly what the PHP
property namer produces), the round trip fails: hydrate writes the key
`myName`, dehydrate's presence check on `myName` passes, but the constructor
argument reads `$data['my_name']` — absent, so null — and the generated
`string $myName` parameter rejects it under `declare(strict_types=1)`:
`dehydrate(hydrate(t))` throws a `TypeError` instead of returning the
original instance.  The last conjunct shows the deeper typing failure the
amended claim must exclude: an integer field's parameter is declared `long`,
an undefined class name, so its dehydrate rejects even a well-shaped integer
value. -/
theorem roundtrip_fails_on_renamed_field :
    hydrate 5 [] ⟨"P", "P", [⟨"my_name", "myName", .strT⟩]⟩
        (.objV [("myName", .strV "x")]) = .ok (.objV [("myName", .strV "x")]) ∧
    dehydrate 5 [] ⟨"P", "P", [⟨"my_name", "myName", .strT⟩]⟩
        [("myName", .strV "x")] = .error (.typeError "myName") ∧
    dehydrate 5 [] ⟨"N", "N", [⟨"n", "n", .intT⟩]⟩ [("n", .intV 5)] =
      .error (.typeError "n") :=
  ⟨rfl, rfl, rfl⟩

end QT
